import Mathlib

/-!
Verification development for the home-hunter listing pipeline.

This file shallowly embeds the components of the repository that the
checked properties concern: the address normalizer and deduplicator
(`src/dedup/deduplicator.py`), database reconciliation
(`src/db.py`, `Database.reconcile`), the dynamic listing age filter
(`src/main.py`, `_passes_age_filter`), the heuristic sub-scoring
functions (`src/scoring/criteria.py`), the generative scoring engine
(`src/scoring/engine.py`, `ScoringEngine.score`), and the market
analyzer (`src/market_analyzer.py`).

Modelling conventions:
* Python `int` becomes `ℤ`; Python `float` arithmetic is modelled
  exactly over `ℚ` (the numeric literals involved are decimal and the
  comparisons at stake are far from float rounding boundaries).
* `None` becomes `Option.none`; Python truthiness of optional numbers,
  strings, lists and dicts is modelled by explicit helpers.
* Python `dict` (insertion ordered) becomes an association list with
  first-position-preserving overwrite, matching CPython semantics.
* `datetime.now()` is passed in as an abstract timestamp (`ℕ`), and
  `date.today().year` as an abstract `currentYear : ℤ`.
* Strings are manipulated through explicit `List Char` helpers that
  model the Python `str` operations used by the source (ASCII-faithful).
* The SHA-256 address fingerprint (`address_fingerprint`) is used by the
  source purely as a deterministic grouping key; it is modelled as an
  explicit function parameter `fp : String → String` of the dedup
  pipeline, so theorems hold for the actual truncated digest as a
  special case, and concrete executions instantiate it with a
  collision-free function on the addresses involved.
-/

/-! ### Python string helpers (models of `str.lower`, `str.strip`,
`str.split`, `re.sub` character removal, slicing) -/

/-- Model of Python `str.lower()` for ASCII text. -/
def pyLower (s : String) : String := ⟨s.data.map Char.toLower⟩

/-- Model of Python `str.upper()` for ASCII text. -/
def pyUpper (s : String) : String := ⟨s.data.map Char.toUpper⟩

/-- Model of Python `str.strip()`: drop leading and trailing whitespace. -/
def pyStrip (s : String) : String :=
  ⟨((s.data.dropWhile Char.isWhitespace).reverse.dropWhile Char.isWhitespace).reverse⟩

/-- Tokenizer core for Python `str.split()` with no argument:
split on runs of whitespace, discarding empty chunks. -/
def wsTokensAux : List Char → List Char → List (List Char)
  | [], acc => if acc = [] then [] else [acc.reverse]
  | c :: cs, acc =>
    if c.isWhitespace then
      if acc = [] then wsTokensAux cs [] else acc.reverse :: wsTokensAux cs []
    else wsTokensAux cs (c :: acc)

/-- Model of Python `str.split()` (no argument form). -/
def pySplitWs (s : String) : List String :=
  (wsTokensAux s.data []).map fun cs => ⟨cs⟩

/-- Model of Python `" ".join(tokens)` / `"|"`-interpolation. -/
def joinWith (sep : String) : List String → String
  | [] => ""
  | [x] => x
  | x :: y :: xs => x ++ sep ++ joinWith sep (y :: xs)

/-- Remove every character satisfying `bad` (model of
`re.sub("[...]", "", s)`). -/
def removeChars (bad : Char → Bool) (s : String) : String :=
  ⟨s.data.filter fun c => !(bad c)⟩

/-- Model of Python slicing `s[:n]` on a string. -/
def pyTake (n : ℕ) (s : String) : String := ⟨s.data.take n⟩

/-! ### Association-list dictionaries (CPython `dict` model) -/

/-- `d[k] = v` on an insertion-ordered dict: overwrite in place if the
key exists, else append at the end. -/
def dictInsert (d : List (String × String)) (k v : String) : List (String × String) :=
  match d with
  | [] => [(k, v)]
  | (k', v') :: rest =>
    if k' = k then (k', v) :: rest else (k', v') :: dictInsert rest k v

/-- `d1.update(d2)` on insertion-ordered dicts. -/
def dictUpdate (d1 d2 : List (String × String)) : List (String × String) :=
  d2.foldl (fun d p => dictInsert d p.1 p.2) d1

/-- `tbl.get(k, k)`: look `k` up in a literal table, defaulting to `k`. -/
def tableGetD (tbl : List (String × String)) (k : String) : String :=
  match tbl.find? (fun p => p.1 = k) with
  | some p => p.2
  | none => k

/-! ### Data model (`src/models.py`) -/

/-- `ListingSource` enum from `src/models.py`. -/
inductive ListingSource where
  | redfin
  | realtor
  | zillow
deriving DecidableEq, Repr

/-- `.value` of the `ListingSource` enum. -/
def sourceValue : ListingSource → String
  | .redfin => "redfin"
  | .realtor => "realtor"
  | .zillow => "zillow"

/-- `PropertyType` enum from `src/models.py`. -/
inductive PropertyType where
  | single_family
  | condo
  | townhouse
  | multi_family
  | land
deriving DecidableEq, Repr

/-- `PriceHistoryEntry` from `src/models.py`; the date is modelled as an
ordinal day number. -/
structure PriceHistoryEntry where
  date : ℤ
  price : ℤ
  event : String
deriving DecidableEq, Repr

/-- The breakdown dictionary returned by the generative scoring engine
(`{"rationale": ..., "strengths": ..., "weaknesses": ...}`). -/
structure Breakdown where
  rationale : String
  strengths : List String
  weaknesses : List String
deriving DecidableEq, Repr

/-- The `Listing` pydantic model from `src/models.py`, field for field.
Floats are modelled as `ℚ`, timestamps as `ℕ`, dicts as association
lists. -/
structure Listing where
  id : Option String := none
  source : ListingSource
  source_id : String
  source_url : String := ""
  address : String
  city : String
  state : String
  zip_code : String
  county : Option String := none
  latitude : Option ℚ := none
  longitude : Option ℚ := none
  price : ℤ
  property_type : Option PropertyType := none
  bedrooms : Option ℤ := none
  bathrooms : Option ℚ := none
  sqft : Option ℤ := none
  lot_sqft : Option ℤ := none
  year_built : Option ℤ := none
  stories : Option ℤ := none
  has_garage : Option Bool := none
  garage_spaces : Option ℤ := none
  has_basement : Option Bool := none
  has_pool : Option Bool := none
  has_fireplace : Option Bool := none
  hoa_monthly : Option ℚ := none
  list_date : Option ℤ := none
  days_on_market : Option ℤ := none
  status : String := "active"
  price_history : List PriceHistoryEntry := []
  photo_url : Option String := none
  redfin_estimate : Option ℤ := none
  zestimate : Option ℤ := none
  annual_tax : Option ℚ := none
  tax_rate : Option ℚ := none
  walk_score : Option ℤ := none
  transit_score : Option ℤ := none
  bike_score : Option ℤ := none
  flood_zone : Option String := none
  flood_risk_rating : Option String := none
  school_rating : Option ℚ := none
  commute_minutes : Option (List (String × ℚ)) := none
  deal_score : Option ℚ := none
  score_breakdown : Option Breakdown := none
  normalized_address : Option String := none
  first_seen : Option ℕ := none
  last_seen : Option ℕ := none
  is_new : Bool := true
  source_urls : List (String × String) := []
  highlights : Option (List String) := none
  top_scores : Option (List String) := none
deriving DecidableEq, Repr

/-- `AreaStats` from `src/models.py`. -/
structure AreaStats where
  area_key : String
  median_price : Option ℤ := none
  median_price_per_sqft : Option ℚ := none
  median_lot_size : Option ℤ := none
  median_dom : Option ℤ := none
  sample_size : ℤ := 0
  computed_at : Option ℕ := none
deriving DecidableEq, Repr

/-- The DOM-filter slice of `FilterConfig` from `src/config.py`. -/
structure FilterConfig where
  max_dom_multiplier : ℚ := 4
  max_dom_absolute : ℤ := 365
deriving DecidableEq, Repr

/-! ### Python truthiness helpers -/

/-- Truthiness of an optional integer (`None` and `0` are falsy). -/
def optIntTruthy : Option ℤ → Bool
  | none => false
  | some n => n != 0

/-- Truthiness of an optional rational (`None` and `0.0` are falsy). -/
def optRatTruthy : Option ℚ → Bool
  | none => false
  | some q => q != 0

/-- Truthiness of an optional bool (`None` and `False` are falsy). -/
def optBoolTruthy : Option Bool → Bool
  | none => false
  | some b => b

/-- Python `int(x)` on a rational: truncation toward zero. -/
def pyInt (q : ℚ) : ℤ := if 0 ≤ q then ⌊q⌋ else ⌈q⌉

/-! ### Deduplicator (`src/dedup/deduplicator.py`) -/

/-- The `STREET_ABBREVS` table, in source order. -/
def STREET_ABBREVS : List (String × String) :=
  [("street", "st"), ("avenue", "ave"), ("boulevard", "blvd"),
   ("drive", "dr"), ("lane", "ln"), ("court", "ct"), ("circle", "cir"),
   ("place", "pl"), ("road", "rd"), ("terrace", "ter"), ("way", "wy"),
   ("trail", "trl"), ("parkway", "pkwy"), ("highway", "hwy"),
   ("north", "n"), ("south", "s"), ("east", "e"), ("west", "w"),
   ("northeast", "ne"), ("northwest", "nw"), ("southeast", "se"), ("southwest", "sw"),
   ("apartment", "apt"), ("unit", "unit"), ("suite", "ste"), ("#", "apt")]

/-- The punctuation characters removed by `re.sub(r"[.,']", "", addr)`. -/
def strippedPunct (c : Char) : Bool :=
  c = '.' || c = ',' || c = '\''

/-- `normalize_address` from `src/dedup/deduplicator.py`: lower-case and
strip the address, remove `.`/`,`/apostrophe, rewrite whitespace tokens
through `STREET_ABBREVS`, and join with lower-cased city, upper-cased
state and the first five characters of the zip, separated by `|`. -/
def normalize_address (address city state zip_code : String) : String :=
  let addr := pyStrip (pyLower address)
  let addr := removeChars strippedPunct addr
  let tokens := pySplitWs addr
  let addr := joinWith " " (tokens.map (tableGetD STREET_ABBREVS))
  addr ++ "|" ++ pyStrip (pyLower city) ++ "|" ++ pyStrip (pyUpper state)
       ++ "|" ++ pyTake 5 (pyStrip zip_code)

/-- `_is_geo_match` from `src/dedup/deduplicator.py` (default
`threshold_deg = 0.0001`). -/
def _is_geo_match (a b : Listing) (threshold_deg : ℚ := 1/10000) : Bool :=
  match a.latitude, a.longitude, b.latitude, b.longitude with
  | some la, some loa, some lb, some lob =>
    decide (|la - lb| < threshold_deg) && decide (|loa - lob| < threshold_deg)
  | _, _, _, _ => false

/-- `_is_price_similar` from `src/dedup/deduplicator.py` (default
`tolerance = 0.05`). -/
def _is_price_similar (a b : Listing) (tolerance : ℚ := 1/20) : Bool :=
  if a.price = 0 ∨ b.price = 0 then false
  else decide ((min a.price b.price : ℚ) / (max a.price b.price : ℚ) ≥ 1 - tolerance)

/-- `_beds_baths_match` from `src/dedup/deduplicator.py`. -/
def _beds_baths_match (a b : Listing) : Bool :=
  (match a.bedrooms, b.bedrooms with
   | some x, some y => x == y
   | _, _ => true) &&
  (match a.bathrooms, b.bathrooms with
   | some x, some y => x == y
   | _, _ => true)

/-- The conjunction tested by `Deduplicator.process` before pulling a
pair of singletons into a geo-merge group. -/
def pairMatch (a b : Listing) : Bool :=
  _is_geo_match a b && _is_price_similar a b && _beds_baths_match a b

/-- A default `Listing`, used only to totalize `mergeListings` on the
empty list (the source never merges an empty group). -/
def emptyListing : Listing :=
  { source := .redfin, source_id := "", address := "", city := "",
    state := "", zip_code := "", price := 0 }

/-- The `all_source_urls` accumulation of `_merge_listings`: union each
listing's `source_urls`, then its own `source_url` keyed by source name
when nonempty. -/
def mergeUrls (listings : List Listing) : List (String × String) :=
  listings.foldl
    (fun d l =>
      let d := dictUpdate d l.source_urls
      if l.source_url ≠ "" then dictInsert d (sourceValue l.source) l.source_url else d)
    []

/-- `_merge_listings` field fill: take the sqft when the base lacks
one. -/
def mergeSqft (m l : Listing) : Listing :=
  if m.sqft = none ∧ l.sqft ≠ none then { m with sqft := l.sqft } else m

/-- `_merge_listings` field fill: take the lot size when the base lacks
one. -/
def mergeLotSqft (m l : Listing) : Listing :=
  if m.lot_sqft = none ∧ l.lot_sqft ≠ none then { m with lot_sqft := l.lot_sqft } else m

/-- `_merge_listings` field fill: take the year built when the base lacks
one. -/
def mergeYearBuilt (m l : Listing) : Listing :=
  if m.year_built = none ∧ l.year_built ≠ none then { m with year_built := l.year_built } else m

/-- `_merge_listings` field fill: take the HOA fee when the base lacks
one. -/
def mergeHoa (m l : Listing) : Listing :=
  if m.hoa_monthly = none ∧ l.hoa_monthly ≠ none then { m with hoa_monthly := l.hoa_monthly } else m

/-- `_merge_listings` field fill: take the annual tax when the base lacks
one. -/
def mergeTax (m l : Listing) : Listing :=
  if m.annual_tax = none ∧ l.annual_tax ≠ none then { m with annual_tax := l.annual_tax } else m

/-- `_merge_listings` field fill: take the garage flag when the base lacks
one. -/
def mergeGarage (m l : Listing) : Listing :=
  if m.has_garage = none ∧ l.has_garage ≠ none then { m with has_garage := l.has_garage } else m

/-- `_merge_listings` field fill: take the basement flag when the base lacks
one. -/
def mergeBasement (m l : Listing) : Listing :=
  if m.has_basement = none ∧ l.has_basement ≠ none then { m with has_basement := l.has_basement } else m

/-- `_merge_listings` field fill: take the pool flag when the base lacks
one. -/
def mergePool (m l : Listing) : Listing :=
  if m.has_pool = none ∧ l.has_pool ≠ none then { m with has_pool := l.has_pool } else m

/-- `_merge_listings` field fill: take the fireplace flag when the base lacks
one. -/
def mergeFireplace (m l : Listing) : Listing :=
  if m.has_fireplace = none ∧ l.has_fireplace ≠ none then { m with has_fireplace := l.has_fireplace } else m

/-- `_merge_listings` field fill: take the school rating when the base lacks
one. -/
def mergeSchool (m l : Listing) : Listing :=
  if m.school_rating = none ∧ l.school_rating ≠ none then { m with school_rating := l.school_rating } else m

/-- `_merge_listings` field fill: take the photo URL when the base lacks
one. -/
def mergePhoto (m l : Listing) : Listing :=
  if m.photo_url = none ∧ l.photo_url ≠ none then { m with photo_url := l.photo_url } else m

/-- `_merge_listings`: take a truthy Redfin estimate from a Redfin
listing. -/
def mergeRedfinEst (m l : Listing) : Listing :=
  if sourceValue l.source = "redfin" ∧ optIntTruthy l.redfin_estimate then
    { m with redfin_estimate := l.redfin_estimate }
  else m

/-- `_merge_listings`: take a truthy Zestimate from a Zillow listing. -/
def mergeZest (m l : Listing) : Listing :=
  if sourceValue l.source = "zillow" ∧ optIntTruthy l.zestimate then
    { m with zestimate := l.zestimate }
  else m

/-- `_merge_listings`: the longer price history wins outright. -/
def mergeHistory (m l : Listing) : Listing :=
  if m.price_history.length < l.price_history.length then
    { m with price_history := l.price_history }
  else m

/-- `_merge_listings`: adopt coordinates (both at once) when the base
has none. -/
def mergeCoords (m l : Listing) : Listing :=
  if m.latitude = none ∧ l.latitude ≠ none then
    { m with latitude := l.latitude, longitude := l.longitude }
  else m

/-- One iteration of the `for listing in listings[1:]` loop of
`_merge_listings`, with each conditional field update as a named step,
applied in source order. -/
def mergeStep (m l : Listing) : Listing :=
  mergeCoords (mergeHistory (mergeZest (mergeRedfinEst (mergePhoto
  (mergeSchool (mergeFireplace (mergePool (mergeBasement (mergeGarage
  (mergeTax (mergeHoa (mergeYearBuilt (mergeLotSqft (mergeSqft m l) l) l) l)
  l) l) l) l) l) l) l) l) l) l) l

/-- `_merge_listings` from `src/dedup/deduplicator.py`: a single-element
group is returned as is; otherwise the first listing is the base, the
merged `source_urls` dict is installed, and every later listing is
folded in with `mergeStep`. -/
def mergeListings : List Listing → Listing
  | [] => emptyListing
  | [l] => l
  | l :: rest => rest.foldl mergeStep { l with source_urls := mergeUrls (l :: rest) }

/-- Phase 1 of `Deduplicator.process`: set `normalized_address`. -/
def normListing (l : Listing) : Listing :=
  { l with
    normalized_address := some (normalize_address l.address l.city l.state l.zip_code) }

/-- The fingerprint of a listing's normalized address; `fp` abstracts
`address_fingerprint` (truncated SHA-256). -/
def fpOf (fp : String → String) (l : Listing) : String :=
  fp (l.normalized_address.getD "")

/-- Append listing `l` to the group keyed `k`, creating the group at the
end if absent (insertion-ordered dict of lists). -/
def addToGroups (k : String) (l : Listing) :
    List (String × List Listing) → List (String × List Listing)
  | [] => [(k, [l])]
  | (k', g) :: rest =>
    if k' = k then (k', g ++ [l]) :: rest else (k', g) :: addToGroups k l rest

/-- Phase 2 of `Deduplicator.process`: group listings by fingerprint,
in first-occurrence order. -/
def buildGroups (fp : String → String) (ls : List Listing) :
    List (String × List Listing) :=
  ls.foldl (fun gs l => addToGroups (fpOf fp l) l gs) []

/-- `singletons`: the sole member of each group of size 1, in group
order. -/
def singletonsOf (gs : List (String × List Listing)) : List Listing :=
  gs.filterMap fun p =>
    match p.2 with
    | [x] => some x
    | _ => none

/-- `multi_groups`: the groups of size greater than 1. -/
def multiOf (gs : List (String × List Listing)) : List (String × List Listing) :=
  gs.filter fun p => 1 < p.2.length

/-- State of the geo-matching pass: the mutable `multi_groups` dict and
the `geo_merged` index set. -/
structure GeoState where
  multi : List (String × List Listing)
  merged : List ℕ
deriving DecidableEq, Repr

/-- Add an index to the `geo_merged` set. -/
def addIdx (n : ℕ) (l : List ℕ) : List ℕ :=
  if n ∈ l then l else n :: l

/-- Does the dict contain key `k`? -/
def hasKey (k : String) (gs : List (String × List Listing)) : Bool :=
  (gs.find? fun p => p.1 = k).isSome

/-- `multi_groups[fp_a].append(b)` on an existing key. -/
def appendToGroup (k : String) (b : Listing) :
    List (String × List Listing) → List (String × List Listing)
  | [] => []
  | (k', g) :: rest =>
    if k' = k then (k', g ++ [b]) :: rest else (k', g) :: appendToGroup k b rest

/-- The body of a successful geo match: seed `multi_groups[fp_a]` with
`[a]` if the key is new, append the matched singleton, and mark both
indices merged. -/
def appendGeo (fp : String → String) (st : GeoState) (a b : Listing) (i j : ℕ) : GeoState :=
  let k := fpOf fp a
  let multi :=
    if hasKey k st.multi then appendToGroup k b st.multi
    else st.multi ++ [(k, [a, b])]
  ⟨multi, addIdx i (addIdx j st.merged)⟩

/-- The inner `for j in range(i + 1, len(singletons))` loop of the geo
pass, over the remaining indexed singletons. -/
def geoInner (fp : String → String) (a : Listing) (i : ℕ) :
    List (ℕ × Listing) → GeoState → GeoState
  | [], st => st
  | (j, b) :: rest, st =>
    if j ∈ st.merged then geoInner fp a i rest st
    else if pairMatch a b then geoInner fp a i rest (appendGeo fp st a b i j)
    else geoInner fp a i rest st

/-- The outer `for i, a in enumerate(singletons)` loop of the geo pass. -/
def geoOuter (fp : String → String) :
    List (ℕ × Listing) → GeoState → GeoState
  | [], st => st
  | (i, a) :: rest, st =>
    if i ∈ st.merged then geoOuter fp rest st
    else geoOuter fp rest (geoInner fp a i rest st)

/-- `Deduplicator.process` from `src/dedup/deduplicator.py`, with the
fingerprint function abstracted as `fp`: normalize addresses, group by
fingerprint, geo-match the singletons pairwise, merge every multi
group, and append the singletons that were neither geo-merged nor
shadowed by a merged group's fingerprint. -/
def process (fp : String → String) (listings : List Listing) : List Listing :=
  let normed := listings.map normListing
  let groups := buildGroups fp normed
  let sing := singletonsOf groups
  let multi0 := multiOf groups
  let st := geoOuter fp sing.enum ⟨multi0, []⟩
  let seen := st.multi.map Prod.fst
  let mergedPart := st.multi.map fun p => mergeListings p.2
  let rest :=
    (sing.enum.filter fun p =>
      !(st.merged.contains p.1) && !(seen.contains (fpOf fp p.2))).map Prod.snd
  mergedPart ++ rest

/-- The address identity of a listing: the fields `normalize_address`
reads plus the cached `normalized_address`. `_merge_listings` never
writes any of them. -/
def addrOf (l : Listing) : String × String × String × String × Option String :=
  (l.address, l.city, l.state, l.zip_code, l.normalized_address)

/-- Number of enumerated singletons not yet geo-merged (proof measure
for the geo pass). -/
def countUnmerged (E : List (ℕ × Listing)) (m : List ℕ) : ℕ :=
  (E.filter fun p => !(m.contains p.1)).length

/-! ### Reconciliation (`src/db.py`, `Database.reconcile`) -/

/-- The `SELECT * FROM listings WHERE normalized_address = ? AND source = ?`
lookup: the persisted store is modelled as a list of listings with a
uniqueness constraint on `(normalized_address, source)`; a `None`
normalized address matches no row (SQL `NULL` equality). -/
def findExisting (store : List Listing) (l : Listing) : Option Listing :=
  match l.normalized_address with
  | none => none
  | some na =>
    store.find? fun e => e.normalized_address = some na ∧ e.source = l.source

/-- The walk/transit/bike carry-over block of `Database.reconcile`:
the three scores move as a set. -/
def carryWalk (e r : Listing) : Listing :=
  if r.walk_score = none ∧ e.walk_score ≠ none then
    { r with walk_score := e.walk_score, transit_score := e.transit_score,
             bike_score := e.bike_score }
  else r

/-- The flood-zone/risk-rating carry-over block of `Database.reconcile`. -/
def carryFlood (e r : Listing) : Listing :=
  if r.flood_risk_rating = none ∧ e.flood_risk_rating ≠ none then
    { r with flood_zone := e.flood_zone, flood_risk_rating := e.flood_risk_rating }
  else r

/-- The commute-minutes carry-over block of `Database.reconcile`. -/
def carryCommute (e r : Listing) : Listing :=
  if r.commute_minutes = none ∧ e.commute_minutes ≠ none then
    { r with commute_minutes := e.commute_minutes }
  else r

/-- The school-rating carry-over block of `Database.reconcile`. -/
def carrySchool (e r : Listing) : Listing :=
  if r.school_rating = none ∧ e.school_rating ≠ none then
    { r with school_rating := e.school_rating }
  else r

/-- The deal-score carry-over block of `Database.reconcile`: preserve
the prior deal score and breakdown when the price is unchanged. -/
def carryScore (e r : Listing) : Listing :=
  if e.deal_score ≠ none ∧ r.price = e.price then
    { r with deal_score := e.deal_score, score_breakdown := e.score_breakdown }
  else r

/-- The body of the `for listing in listings` loop of
`Database.reconcile`, for one listing: `fid` is the fresh
`str(uuid.uuid4())[:16]` identity used when the listing is new; the
returned boolean is `true` when the listing was appended to
`new_listings`. The carry-over blocks run in source order. -/
def reconcileOne (store : List Listing) (now : ℕ) (fid : String) (l : Listing) :
    Listing × Bool :=
  match findExisting store l with
  | none =>
    ({ l with first_seen := some now, last_seen := some now,
              is_new := true, id := some fid }, true)
  | some e =>
    let r := { l with id := e.id, first_seen := e.first_seen,
                      last_seen := some now, is_new := false }
    (carryScore e (carrySchool e (carryCommute e (carryFlood e (carryWalk e r)))), false)

/-- `Database.reconcile`: process each listing with `reconcileOne`
(`fids i` supplies the fresh identity for position `i`) and return
`(new_listings, updated_listings)` in input order. -/
def reconcile (store : List Listing) (now : ℕ) (fids : ℕ → String)
    (listings : List Listing) : List Listing × List Listing :=
  let processed := listings.enum.map fun p => reconcileOne store now (fids p.1) p.2
  ((processed.filter fun p => p.2).map Prod.fst,
   (processed.filter fun p => !p.2).map Prod.fst)

/-! ### Age filter (`src/main.py`, `_passes_age_filter`) -/

/-- `area_stats.get(listing.zip_code)` on the per-zip stats mapping. -/
def lookupStats (stats : List (String × AreaStats)) (z : String) : Option AreaStats :=
  (stats.find? fun p => p.1 = z).map Prod.snd

/-- The effective area median DOM used by `_passes_age_filter`:
`zip_stats.median_dom if zip_stats and zip_stats.median_dom else 30`
(note the Python truthiness: a stored median of `0` also falls back to
30). -/
def effMedianDom (stats : List (String × AreaStats)) (z : String) : ℤ :=
  match lookupStats stats z with
  | some st =>
    match st.median_dom with
    | some m => if m ≠ 0 then m else 30
    | none => 30
  | none => 30

/-- `_passes_age_filter` from `src/main.py`: a listing with unknown DOM
passes; otherwise it passes iff its DOM does not exceed
`max(min(int(median * multiplier), absolute_cap), 30)`. -/
def _passes_age_filter (l : Listing) (stats : List (String × AreaStats))
    (filters : FilterConfig) : Bool :=
  match l.days_on_market with
  | none => true
  | some dom =>
    let median_dom := effMedianDom stats l.zip_code
    let dynamic_max := pyInt ((median_dom : ℚ) * filters.max_dom_multiplier)
    let effective_max := min dynamic_max filters.max_dom_absolute
    let effective_max := max effective_max 30
    decide (dom ≤ effective_max)

/-! ### Heuristic sub-scores (`src/scoring/criteria.py`) -/

/-- `score_price_vs_estimate`. -/
def score_price_vs_estimate (l : Listing) (_a : AreaStats) : ℚ :=
  let estimate := if optIntTruthy l.redfin_estimate then l.redfin_estimate else l.zestimate
  match estimate with
  | none => 1/2
  | some e =>
    if e = 0 then 1/2
    else max 0 (min 1 ((115/100 - (l.price : ℚ) / (e : ℚ)) / (30/100)))

/-- `score_price_per_sqft`. -/
def score_price_per_sqft (l : Listing) (a : AreaStats) : ℚ :=
  if !(optIntTruthy l.sqft) ∨ !(optRatTruthy a.median_price_per_sqft) then 1/2
  else
    let ppsf := (l.price : ℚ) / ((l.sqft.getD 0 : ℤ) : ℚ)
    let ratio := ppsf / a.median_price_per_sqft.getD 0
    max 0 (min 1 ((130/100 - ratio) / (60/100)))

/-- `score_days_on_market`. -/
def score_days_on_market (l : Listing) (a : AreaStats) : ℚ :=
  match l.days_on_market with
  | none => 1/2
  | some d =>
    let median_dom : ℤ :=
      match a.median_dom with
      | some m => if m ≠ 0 then m else 30
      | none => 30
    let threshold := max (median_dom * 3) 120
    min 1 ((d : ℚ) / (threshold : ℚ))

/-- `score_price_reductions`. -/
def score_price_reductions (l : Listing) (_a : AreaStats) : ℚ :=
  if l.price_history.length < 2 then 0
  else
    let original := (l.price_history.headD ⟨0, 0, ""⟩).price
    if original = 0 then 0
    else
      let total_reduction := ((original - l.price : ℤ) : ℚ) / (original : ℚ)
      if total_reduction ≤ 0 then 0
      else min 1 (total_reduction / (15/100))

/-- `score_lot_size`. -/
def score_lot_size (l : Listing) (a : AreaStats) : ℚ :=
  if !(optIntTruthy l.lot_sqft) ∨ !(optIntTruthy a.median_lot_size) then 1/2
  else
    let ratio := ((l.lot_sqft.getD 0 : ℤ) : ℚ) / ((a.median_lot_size.getD 0 : ℤ) : ℚ)
    max 0 (min 1 (ratio / 2))

/-- `score_hoa`. -/
def score_hoa (l : Listing) (_a : AreaStats) : ℚ :=
  match l.hoa_monthly with
  | none => 1
  | some h =>
    if h = 0 then 1
    else if h ≤ 100 then 8/10
    else if h ≤ 200 then 7/10
    else if h ≤ 350 then 5/10
    else if h ≤ 500 then 3/10
    else 1/10

/-- `score_tax_rate`. -/
def score_tax_rate (l : Listing) (_a : AreaStats) : ℚ :=
  if !(optRatTruthy l.annual_tax) ∨ l.price = 0 then 1/2
  else
    let effective_rate := l.annual_tax.getD 0 / (l.price : ℚ)
    max 0 (min 1 ((4/100 - effective_rate) / (35/1000)))

/-- `score_school_rating`. -/
def score_school_rating (l : Listing) (_a : AreaStats) : ℚ :=
  match l.school_rating with
  | none => 1/2
  | some r => min 1 (max 0 (r / 10))

/-- `score_walk_score`. -/
def score_walk_score (l : Listing) (_a : AreaStats) : ℚ :=
  match l.walk_score with
  | none => 1/2
  | some w => (w : ℚ) / 100

/-- `score_flood_risk`. -/
def score_flood_risk (l : Listing) (_a : AreaStats) : ℚ :=
  match l.flood_risk_rating with
  | some s =>
    if s = "minimal" then 1
    else if s = "moderate" then 1/2
    else if s = "high" then 1/10
    else 1/2
  | none => 1/2

/-- `score_commute`. -/
def score_commute (l : Listing) (_a : AreaStats) : ℚ :=
  match l.commute_minutes with
  | none => 1/2
  | some ts =>
    if ts = [] then 1/2
    else
      let times := ts.map Prod.snd
      let avg := times.sum / (times.length : ℚ)
      max 0 (min 1 ((60 - avg) / 40))

/-- `score_property_age`; `currentYear` models `date.today().year`. -/
def score_property_age (currentYear : ℤ) (l : Listing) (_a : AreaStats) : ℚ :=
  if !(optIntTruthy l.year_built) then 1/2
  else
    let age := currentYear - l.year_built.getD 0
    if age ≤ 5 then 1
    else if age ≤ 20 then 8/10
    else if age ≤ 40 then 6/10
    else if age ≤ 60 then 4/10
    else 2/10

/-- `score_bed_bath_value`. -/
def score_bed_bath_value (l : Listing) (_a : AreaStats) : ℚ :=
  if !(optIntTruthy l.bedrooms) ∨ l.price = 0 then 1/2
  else
    let baths := l.bathrooms.getD 0
    let rooms := ((l.bedrooms.getD 0 : ℤ) : ℚ) + baths
    let value_per_100k := rooms / ((l.price : ℚ) / 100000)
    min 1 (value_per_100k / 3)

/-- `score_features`. -/
def score_features (l : Listing) (_a : AreaStats) : ℚ :=
  let bonus : ℚ := 0
  let bonus := if optBoolTruthy l.has_garage then bonus + 3/10 else bonus
  let bonus := if optBoolTruthy l.has_basement then bonus + 3/10 else bonus
  let bonus := if optBoolTruthy l.has_pool then bonus + 2/10 else bonus
  let bonus := if optBoolTruthy l.has_fireplace then bonus + 2/10 else bonus
  min 1 bonus

/-! ### Generative scoring engine (`src/scoring/engine.py`) -/

/-- Outcome of the backend call inside `ScoringEngine.score`, as seen by
the error handling of the source: the API may fail
(`anthropic.APIError`), the response text may fail `json.loads`
(`json.JSONDecodeError`), any other exception may surface (including a
missing or non-integer `"score"` key, whose extraction is modelled by
`score = none`), or a JSON object may parse with an integer score and
optional rationale/strength/weakness fields. -/
inductive BackendOutcome where
  | apiFailure
  | otherFailure
  | malformedJson
  | jsonObject (score : Option ℤ) (rationale : Option String)
      (strengths : Option (List String)) (weaknesses : Option (List String))
deriving DecidableEq, Repr

/-- `ScoringEngine.score`: with no API key (`self.client is None`) it
returns the fixed neutral result; otherwise it maps each backend
outcome to the source's fallback or to the clamped integer score. -/
def engineScore (hasApiKey : Bool) (outcome : BackendOutcome) : ℚ × Breakdown :=
  if !hasApiKey then
    (50, ⟨"No API key — default score", [], []⟩)
  else
    match outcome with
    | .apiFailure => (50, ⟨"Scoring error — API failure", [], []⟩)
    | .otherFailure => (50, ⟨"Scoring error — unexpected failure", [], []⟩)
    | .malformedJson => (50, ⟨"Scoring error — could not parse response", [], []⟩)
    | .jsonObject none _ _ _ => (50, ⟨"Scoring error — unexpected failure", [], []⟩)
    | .jsonObject (some n) r s w =>
      (((max 0 (min 100 n) : ℤ) : ℚ), ⟨r.getD "", s.getD [], w.getD []⟩)

/-! ### Market analyzer (`src/market_analyzer.py`) -/

/-- `MarketCondition` classifications. -/
inductive MarketCondition where
  | very_hot
  | hot
  | normal
  | slow
  | very_slow
deriving DecidableEq, Repr

/-- An entry of `RECOMMENDED_SETTINGS`. -/
structure RecommendedSetting where
  max_dom_multiplier : ℚ
  max_dom_absolute : ℤ
  description : String
deriving DecidableEq, Repr

/-- The `RECOMMENDED_SETTINGS` table. -/
def RECOMMENDED_SETTINGS : MarketCondition → RecommendedSetting
  | .very_hot =>
    ⟨3, 60,
     "Homes are selling extremely fast (median under 14 days). " ++
     "Any listing sitting longer than a few weeks likely has issues. " ++
     "Recommended: filter out listings older than 60 days."⟩
  | .hot =>
    ⟨7/2, 120,
     "Strong seller's market (median 14-30 days). " ++
     "Most desirable homes go under contract within a month. " ++
     "Recommended: filter out listings older than 120 days."⟩
  | .normal =>
    ⟨4, 180,
     "Balanced market (median 30-60 days). " ++
     "Homes are selling at a healthy pace with room for negotiation. " ++
     "Recommended: filter out listings older than 180 days."⟩
  | .slow =>
    ⟨5, 270,
     "Buyer's market (median 60-90 days). " ++
     "Inventory is building up and sellers may be flexible on price. " ++
     "Recommended: filter out listings older than 270 days."⟩
  | .very_slow =>
    ⟨6, 365,
     "Stagnant market (median 90+ days). " ++
     "Significant inventory sitting on the market. " ++
     "Many sellers are likely motivated and open to offers well below asking. " ++
     "Recommended: filter out listings older than 365 days."⟩

/-- The `CONDITION_LABELS` table. -/
def CONDITION_LABELS : MarketCondition → String
  | .very_hot => "Very Hot (Strong Seller's Market)"
  | .hot => "Hot (Seller's Market)"
  | .normal => "Normal (Balanced Market)"
  | .slow => "Slow (Buyer's Market)"
  | .very_slow => "Very Slow (Stagnant Market)"

/-- `_classify_market`: walk the `DOM_THRESHOLDS` bands in table order,
falling back to very-slow. -/
def _classify_market (median_dom : ℚ) : MarketCondition :=
  if 0 ≤ median_dom ∧ median_dom < 14 then .very_hot
  else if 14 ≤ median_dom ∧ median_dom < 30 then .hot
  else if 30 ≤ median_dom ∧ median_dom < 60 then .normal
  else if 60 ≤ median_dom ∧ median_dom < 90 then .slow
  else if 90 ≤ median_dom then .very_slow
  else .very_slow

/-- `statistics.median` on an integer sample: sort, then take the middle
element or the mean of the two middle elements (`0` on the empty list,
never used by the source). -/
def pyMedian (l : List ℤ) : ℚ :=
  let s := l.insertionSort (· ≤ ·)
  let n := s.length
  if n = 0 then 0
  else if n % 2 = 1 then ((s.getD (n / 2) 0 : ℤ) : ℚ)
  else (((s.getD (n / 2 - 1) 0 : ℤ) : ℚ) + ((s.getD (n / 2) 0 : ℤ) : ℚ)) / 2

/-- `statistics.mean` on an integer sample (`0` on the empty list). -/
def pyMean (l : List ℤ) : ℚ :=
  if l.length = 0 then 0 else ((l.sum : ℤ) : ℚ) / (l.length : ℚ)

/-- `_percentile` from `src/market_analyzer.py`: linear interpolation
between order statistics of the already-sorted data. -/
def _percentile (sorted_data : List ℤ) (pct : ℚ) : ℚ :=
  if sorted_data = [] then 0
  else
    let k := ((sorted_data.length - 1 : ℕ) : ℚ) * (pct / 100)
    let f := pyInt k
    let c := f + 1
    if c ≥ (sorted_data.length : ℤ) then ((sorted_data.getLast?.getD 0 : ℤ) : ℚ)
    else
      ((sorted_data.getD f.toNat 0 : ℤ) : ℚ) +
        (k - (f : ℚ)) *
          (((sorted_data.getD c.toNat 0 : ℤ) : ℚ) - ((sorted_data.getD f.toNat 0 : ℤ) : ℚ))

/-- The price-reduction test of the `for listing in all_listings` loop of
`analyze_market`: at least two price-history entries, a positive first
(original) price, and a current price strictly below it. -/
def countsReduced (l : Listing) : Bool :=
  decide (2 ≤ l.price_history.length) &&
  (let original := (l.price_history.headD ⟨0, 0, ""⟩).price
   decide (0 < original) && decide (l.price < original))

/-- The percentage appended to `reduction_pcts` for a reduced listing. -/
def reductionPct (l : Listing) : ℚ :=
  let original := (l.price_history.headD ⟨0, 0, ""⟩).price
  ((original - l.price : ℤ) : ℚ) / (original : ℚ) * 100

/-- A value of the `report.zip_conditions` mapping. -/
structure ZipCondition where
  condition : MarketCondition
  condition_label : String
  median_dom : ℤ
  sample_size : ℤ
  recommended_max_dom : ℤ
deriving DecidableEq, Repr

/-- The `MarketReport` dataclass (timestamps as `ℕ`). -/
structure MarketReport where
  condition : MarketCondition := .normal
  condition_label : String := ""
  median_dom : ℚ := 0
  mean_dom : ℚ := 0
  dom_25th_percentile : ℚ := 0
  dom_75th_percentile : ℚ := 0
  dom_90th_percentile : ℚ := 0
  pct_with_reductions : ℚ := 0
  avg_reduction_pct : ℚ := 0
  total_listings_analyzed : ℤ := 0
  new_listing_pct : ℚ := 0
  total_active : ℤ := 0
  recommended_max_dom_multiplier : ℚ := 4
  recommended_max_dom_absolute : ℤ := 180
  recommendation_description : String := ""
  zip_conditions : List (String × ZipCondition) := []
  analyzed_at : ℕ := 0
deriving DecidableEq, Repr

/-- The per-ZIP breakdown loop of `analyze_market`. -/
def zipConditionsOf (area_stats : List (String × AreaStats)) :
    List (String × ZipCondition) :=
  area_stats.filterMap fun p =>
    match p.2.median_dom with
    | some m =>
      let zc := _classify_market (m : ℚ)
      some (p.1, ⟨zc, CONDITION_LABELS zc, m, p.2.sample_size,
                  (RECOMMENDED_SETTINGS zc).max_dom_absolute⟩)
    | none => none

/-- `analyze_market` from `src/market_analyzer.py`. -/
def analyze_market (all_listings new_listings : List Listing)
    (area_stats : List (String × AreaStats)) (now : ℕ) : MarketReport :=
  let dom_values := all_listings.filterMap (·.days_on_market)
  if dom_values = [] then
    { condition := .normal,
      condition_label := CONDITION_LABELS .normal,
      recommended_max_dom_multiplier := (RECOMMENDED_SETTINGS .normal).max_dom_multiplier,
      recommended_max_dom_absolute := (RECOMMENDED_SETTINGS .normal).max_dom_absolute,
      recommendation_description := (RECOMMENDED_SETTINGS .normal).description,
      total_active := all_listings.length,
      total_listings_analyzed := all_listings.length,
      analyzed_at := now }
  else
    let dom_sorted := dom_values.insertionSort (· ≤ ·)
    let median_dom := pyMedian dom_sorted
    let condition := _classify_market median_dom
    let reduced := all_listings.filter countsReduced
    let reduction_pcts := reduced.map reductionPct
    let pct_with_reductions :=
      if all_listings.length ≠ 0 then
        (reduced.length : ℚ) / (all_listings.length : ℚ) * 100
      else 0
    let avg_reduction_pct :=
      if reduction_pcts ≠ [] then reduction_pcts.sum / (reduction_pcts.length : ℚ)
      else 0
    let new_listing_pct :=
      if all_listings.length ≠ 0 then
        (new_listings.length : ℚ) / (all_listings.length : ℚ) * 100
      else 0
    let adjusted_condition :=
      if pct_with_reductions > 30 ∧ (condition = .very_hot ∨ condition = .hot) then
        MarketCondition.normal
      else if pct_with_reductions < 10 ∧ (condition = .slow ∨ condition = .very_slow) then
        MarketCondition.normal
      else condition
    let settings := RECOMMENDED_SETTINGS adjusted_condition
    { condition := condition,
      condition_label := CONDITION_LABELS condition,
      median_dom := median_dom,
      mean_dom := pyMean dom_sorted,
      dom_25th_percentile := _percentile dom_sorted 25,
      dom_75th_percentile := _percentile dom_sorted 75,
      dom_90th_percentile := _percentile dom_sorted 90,
      pct_with_reductions := pct_with_reductions,
      avg_reduction_pct := avg_reduction_pct,
      total_listings_analyzed := all_listings.length,
      new_listing_pct := new_listing_pct,
      total_active := all_listings.length,
      recommended_max_dom_multiplier := settings.max_dom_multiplier,
      recommended_max_dom_absolute := settings.max_dom_absolute,
      recommendation_description := settings.description,
      zip_conditions := zipConditionsOf area_stats,
      analyzed_at := now }


/-! ### Concrete fixtures used by witnesses and counterexamples -/

/-- A minimal concrete listing. -/
def wl1 : Listing :=
  { source := .redfin, source_id := "s", address := "a", city := "c",
    state := "st", zip_code := "z", price := 100,
    normalized_address := some "na" }

/-- A persisted copy of `wl1` carrying a deal score. -/
def we1 : Listing :=
  { wl1 with deal_score := some 77, score_breakdown := some ⟨"r", [], []⟩ }

/-- Per-zip stats with median DOM 30 for the age-filter scenario. -/
def stats30 : List (String × AreaStats) :=
  [("12345", { area_key := "12345", median_dom := some 30 })]

/-- Filter settings: multiplier 4.0, absolute cap 365. -/
def cfgW : FilterConfig := { max_dom_multiplier := 4, max_dom_absolute := 365 }

/-- A listing with 121 days on market in zip 12345. -/
def l121 : Listing :=
  { source := .redfin, source_id := "x", address := "a", city := "c",
    state := "s", zip_code := "12345", price := 1, days_on_market := some 121 }

/-- A listing with 120 days on market in zip 12345. -/
def l120 : Listing := { l121 with days_on_market := some 120 }

/-- Area stats with no data. -/
def statsZ : AreaStats := { area_key := "z" }

/-- A listing whose stored Walk Score exceeds 100. -/
def walk150 : Listing := { wl1 with walk_score := some 150 }

/-- A price-reduced listing with DOM 10 (market-analysis fixture). -/
def fxR1 : Listing :=
  { source := .redfin, source_id := "r1", address := "a1", city := "c",
    state := "s", zip_code := "z", price := 500000, days_on_market := some 10,
    price_history := [⟨0, 600000, "Listed"⟩, ⟨1, 500000, "Price Change"⟩] }

/-- A second price-reduced listing with DOM 10. -/
def fxR2 : Listing := { fxR1 with source_id := "r2", address := "a2" }

/-- A listing with DOM 10 and no price history. -/
def fxR3 : Listing := { fxR1 with source_id := "r3", address := "a3", price_history := [] }

/-- Market-analysis fixture batch: median DOM 10, two of three reduced. -/
def fxAll : List Listing := [fxR1, fxR2, fxR3]

/-- A listing with negative price at coordinates (10, 20). -/
def gNegA : Listing :=
  { source := .redfin, source_id := "n1", address := "1 a st", city := "c",
    state := "s", zip_code := "z", price := -100, latitude := some 10,
    longitude := some 20, bedrooms := some 3, bathrooms := some 2 }

/-- A second negative-price listing at the same coordinates. -/
def gNegB : Listing :=
  { gNegA with source := .realtor, source_id := "n2", address := "2 b ave" }

/-- A zero-price listing at coordinates (10, 20). -/
def zZeroA : Listing := { gNegA with source_id := "z1", price := 0 }

/-- A second zero-price listing at the same coordinates. -/
def zZeroB : Listing := { gNegB with source_id := "z2", price := 0 }

/-- ASCII punctuation other than `#` (the set the spec claims is
stripped). -/
def isPunctNoHash (c : Char) : Bool :=
  let n := c.toNat
  ((33 ≤ n && n ≤ 47) || (58 ≤ n && n ≤ 64) ||
   (91 ≤ n && n ≤ 96) || (123 ≤ n && n ≤ 126)) && n ≠ 35

/-- The normalizer as the spec's words describe it (`strips all
punctuation except #`): identical to `normalize_address` except that
every ASCII punctuation character other than `#` is removed, not just
`.`, `,` and the apostrophe. Used to compare the spec's wording with
the source. -/
def normalizeAddressSpec (address city state zip_code : String) : String :=
  let addr := pyStrip (pyLower address)
  let addr := removeChars isPunctNoHash addr
  let tokens := pySplitWs addr
  let addr := joinWith " " (tokens.map (tableGetD STREET_ABBREVS))
  addr ++ "|" ++ pyStrip (pyLower city) ++ "|" ++ pyStrip (pyUpper state)
       ++ "|" ++ pyTake 5 (pyStrip zip_code)

/-- First of two same-address listings with coordinates (dedup
idempotence counterexample). -/
def cA : Listing :=
  { source := .redfin, source_id := "ca", address := "1 Main St", city := "c",
    state := "s", zip_code := "z", price := 500000, latitude := some 10,
    longitude := some 20, bedrooms := some 3, bathrooms := some 2 }

/-- A second listing at the same address from another source. -/
def cB : Listing := { cA with source := .realtor, source_id := "cb" }

/-- A listing at a different address but the same coordinates, price
and bed/bath counts. -/
def cC : Listing := { cA with source_id := "cc", address := "2 Oak St" }

/-- The fingerprint-merged pair: first output of the first dedup run. -/
def cM : Listing := mergeListings [normListing cA, normListing cB]

/-- The surviving singleton: second output of the first dedup run. -/
def cC3 : Listing := normListing cC

/-! ### Helper lemmas -/

/-- The fields of a `Listing` that `Database.reconcile` never writes:
everything except identity (`id`), timestamps
(`first_seen`/`last_seen`/`is_new`) and the carry-over fields
(walk/transit/bike score, flood zone and risk rating, commute minutes,
school rating, deal score and breakdown). -/
structure FrameFields where
  source : ListingSource
  source_id : String
  source_url : String
  address : String
  city : String
  state : String
  zip_code : String
  county : Option String
  latitude : Option ℚ
  longitude : Option ℚ
  price : ℤ
  property_type : Option PropertyType
  bedrooms : Option ℤ
  bathrooms : Option ℚ
  sqft : Option ℤ
  lot_sqft : Option ℤ
  year_built : Option ℤ
  stories : Option ℤ
  has_garage : Option Bool
  garage_spaces : Option ℤ
  has_basement : Option Bool
  has_pool : Option Bool
  has_fireplace : Option Bool
  hoa_monthly : Option ℚ
  list_date : Option ℤ
  days_on_market : Option ℤ
  status : String
  price_history : List PriceHistoryEntry
  photo_url : Option String
  redfin_estimate : Option ℤ
  zestimate : Option ℤ
  annual_tax : Option ℚ
  tax_rate : Option ℚ
  normalized_address : Option String
  source_urls : List (String × String)
  highlights : Option (List String)
  top_scores : Option (List String)
deriving DecidableEq, Repr

/-- Comparing an integer DOM against the clamped integer threshold of
`_passes_age_filter` is the same as comparing it against the exact
rational threshold: `int()` truncation is invisible to an integer DOM. -/
theorem clamp_lt_iff (x : ℚ) (cap d : ℤ) :
    max (min (pyInt x) cap) 30 < d ↔ max (min x (cap : ℚ)) 30 < (d : ℚ) := by
  rw [max_lt_iff, max_lt_iff, min_lt_iff, min_lt_iff]
  constructor
  · rintro ⟨h1, h30⟩
    have h30Q : (30 : ℚ) < (d : ℚ) := by exact_mod_cast h30
    refine ⟨?_, h30Q⟩
    rcases h1 with h | h
    · by_cases hx : 0 ≤ x
      · rw [pyInt, if_pos hx] at h
        exact Or.inl (Int.floor_lt.mp h)
      · push_neg at hx
        exact Or.inl (hx.trans (lt_trans (by norm_num) h30Q))
    · exact Or.inr (by exact_mod_cast h)
  · rintro ⟨h1, h30⟩
    have h30' : (30 : ℤ) < d := by exact_mod_cast h30
    refine ⟨?_, h30'⟩
    by_cases hx : 0 ≤ x
    · rcases h1 with h | h
      · exact Or.inl (by rw [pyInt, if_pos hx]; exact Int.floor_lt.mpr h)
      · exact Or.inr (by exact_mod_cast h)
    · push_neg at hx
      refine Or.inl ?_
      rw [pyInt, if_neg (not_le.mpr hx)]
      have h0 : ⌈x⌉ ≤ 0 := Int.ceil_le.mpr (by exact_mod_cast hx.le)
      omega

/-! ### Claim theorems -/

/-- Project a listing onto its reconciliation-frame fields. -/
def frameFields (l : Listing) : FrameFields :=
  ⟨l.source, l.source_id, l.source_url, l.address, l.city, l.state,
   l.zip_code, l.county, l.latitude, l.longitude, l.price,
   l.property_type, l.bedrooms, l.bathrooms, l.sqft, l.lot_sqft,
   l.year_built, l.stories, l.has_garage, l.garage_spaces,
   l.has_basement, l.has_pool, l.has_fireplace, l.hoa_monthly,
   l.list_date, l.days_on_market, l.status, l.price_history,
   l.photo_url, l.redfin_estimate, l.zestimate, l.annual_tax,
   l.tax_rate, l.normalized_address, l.source_urls, l.highlights,
   l.top_scores⟩

theorem carryWalk_frame (e r : Listing) : frameFields (carryWalk e r) = frameFields r := by
  unfold carryWalk; split <;> rfl

theorem carryFlood_frame (e r : Listing) : frameFields (carryFlood e r) = frameFields r := by
  unfold carryFlood; split <;> rfl

theorem carryCommute_frame (e r : Listing) : frameFields (carryCommute e r) = frameFields r := by
  unfold carryCommute; split <;> rfl

theorem carrySchool_frame (e r : Listing) : frameFields (carrySchool e r) = frameFields r := by
  unfold carrySchool; split <;> rfl

theorem carryScore_frame (e r : Listing) : frameFields (carryScore e r) = frameFields r := by
  unfold carryScore; split <;> rfl

theorem carryWalk_price (e r : Listing) : (carryWalk e r).price = r.price :=
  congrArg FrameFields.price (carryWalk_frame e r)

theorem carryFlood_price (e r : Listing) : (carryFlood e r).price = r.price :=
  congrArg FrameFields.price (carryFlood_frame e r)

theorem carryCommute_price (e r : Listing) : (carryCommute e r).price = r.price :=
  congrArg FrameFields.price (carryCommute_frame e r)

theorem carrySchool_price (e r : Listing) : (carrySchool e r).price = r.price :=
  congrArg FrameFields.price (carrySchool_frame e r)

theorem carryWalk_deal (e r : Listing) :
    (carryWalk e r).deal_score = r.deal_score ∧
    (carryWalk e r).score_breakdown = r.score_breakdown := by
  unfold carryWalk; split <;> exact ⟨rfl, rfl⟩

theorem carryFlood_deal (e r : Listing) :
    (carryFlood e r).deal_score = r.deal_score ∧
    (carryFlood e r).score_breakdown = r.score_breakdown := by
  unfold carryFlood; split <;> exact ⟨rfl, rfl⟩

theorem carryCommute_deal (e r : Listing) :
    (carryCommute e r).deal_score = r.deal_score ∧
    (carryCommute e r).score_breakdown = r.score_breakdown := by
  unfold carryCommute; split <;> exact ⟨rfl, rfl⟩

theorem carrySchool_deal (e r : Listing) :
    (carrySchool e r).deal_score = r.deal_score ∧
    (carrySchool e r).score_breakdown = r.score_breakdown := by
  unfold carrySchool; split <;> exact ⟨rfl, rfl⟩

/-- C1: a listing whose `(normalized_address, source)` key is not in the
persisted store is marked `is_new = true` with
`first_seen = last_seen = now` (the current run time); a listing whose
key is found, whose price equals the persisted record's price, and
whose persisted record has a deal score, receives that record's exact
deal score and score breakdown. -/
theorem reconcile_new_and_score_carryover
    (store : List Listing) (now : ℕ) (fid : String) (l : Listing) :
    (findExisting store l = none →
      (reconcileOne store now fid l).1.is_new = true ∧
      (reconcileOne store now fid l).1.first_seen = some now ∧
      (reconcileOne store now fid l).1.last_seen = some now) ∧
    (∀ e, findExisting store l = some e → l.price = e.price →
      e.deal_score ≠ none →
      (reconcileOne store now fid l).1.deal_score = e.deal_score ∧
      (reconcileOne store now fid l).1.score_breakdown = e.score_breakdown) := by
  constructor
  · intro h
    simp [reconcileOne, h]
  · intro e he hp hd
    simp only [reconcileOne, he]
    have hprice : (carrySchool e (carryCommute e (carryFlood e (carryWalk e
        { l with id := e.id, first_seen := e.first_seen,
                 last_seen := some now, is_new := false })))).price = l.price := by
      rw [carrySchool_price, carryCommute_price, carryFlood_price, carryWalk_price]
    show (carryScore e _).deal_score = e.deal_score ∧
      (carryScore e _).score_breakdown = e.score_breakdown
    unfold carryScore
    rw [if_pos ⟨hd, by rw [hprice, hp]⟩]
    exact ⟨rfl, rfl⟩

/-- Witness for C1 at a concrete store and listing. -/
theorem reconcile_new_and_score_carryover_witness :
    (reconcileOne [] 7 "id1" wl1).1.is_new = true ∧
    (reconcileOne [we1] 7 "id1" wl1).1.deal_score = some 77 := by
  constructor
  · exact ((reconcile_new_and_score_carryover [] 7 "id1" wl1).1 rfl).1
  · have h := ((reconcile_new_and_score_carryover [we1] 7 "id1" wl1).2
      we1 rfl rfl (by rw [show we1.deal_score = some 77 from rfl]; exact Option.some_ne_none _))
    exact h.1.trans rfl

/-- C4: the age filter excludes a listing exactly when its known DOM is
strictly greater than `max(min(median_dom * multiplier, absolute_cap), 30)`,
and a listing with unknown DOM always passes. -/
theorem age_filter_characterization (l : Listing)
    (stats : List (String × AreaStats)) (filters : FilterConfig) :
    (l.days_on_market = none → _passes_age_filter l stats filters = true) ∧
    (_passes_age_filter l stats filters = false ↔
      ∃ d, l.days_on_market = some d ∧
        max (min ((effMedianDom stats l.zip_code : ℚ) * filters.max_dom_multiplier)
            (filters.max_dom_absolute : ℚ)) 30 < (d : ℚ)) := by
  constructor
  · intro h
    simp [_passes_age_filter, h]
  · cases hdom : l.days_on_market with
    | none =>
      simp [_passes_age_filter, hdom]
    | some d =>
      simp only [_passes_age_filter, hdom]
      rw [decide_eq_false_iff_not, not_le]
      constructor
      · intro h
        exact ⟨d, rfl, (clamp_lt_iff _ _ _).mp h⟩
      · rintro ⟨d', hd', hlt⟩
        have hdd : d = d' := Option.some.inj hd'
        rw [hdd]
        exact (clamp_lt_iff _ _ _).mpr hlt

/-- Witness for C4: with area median DOM 30, multiplier 4.0 and cap 365
the effective maximum is 120, so DOM 121 is excluded and DOM 120 kept. -/
theorem age_filter_characterization_witness :
    _passes_age_filter l121 stats30 cfgW = false ∧
    _passes_age_filter l120 stats30 cfgW = true := by
  constructor
  · refine (age_filter_characterization l121 stats30 cfgW).2.mpr ⟨121, rfl, ?_⟩
    rw [show effMedianDom stats30 l121.zip_code = (30 : ℤ) from rfl]
    norm_num [cfgW, min_def, max_def]
  · cases hb : _passes_age_filter l120 stats30 cfgW with
    | true => rfl
    | false =>
      exfalso
      obtain ⟨d, hd, hlt⟩ := (age_filter_characterization l120 stats30 cfgW).2.mp hb
      rw [show l120.days_on_market = some 120 from rfl] at hd
      have hd120 : d = 120 := (Option.some.inj hd).symm
      rw [hd120, show effMedianDom stats30 l120.zip_code = (30 : ℤ) from rfl] at hlt
      norm_num [cfgW, min_def, max_def] at hlt

/-- C6: the generative `ScoringEngine.score` is total over every backend
outcome; its score always lies in `[0, 100]` (and a `Breakdown` is
always returned by construction of the result type); missing API
credentials, an API failure, and malformed JSON each yield exactly the
neutral score 50; a returned integer score is clamped to `[0, 100]`. -/
theorem engine_score_safe (hasApiKey : Bool) (outcome : BackendOutcome) :
    (0 ≤ (engineScore hasApiKey outcome).1 ∧ (engineScore hasApiKey outcome).1 ≤ 100) ∧
    (hasApiKey = false → (engineScore hasApiKey outcome).1 = 50) ∧
    (outcome = .apiFailure → (engineScore hasApiKey outcome).1 = 50) ∧
    (outcome = .malformedJson → (engineScore hasApiKey outcome).1 = 50) ∧
    (∀ n r s w, outcome = .jsonObject (some n) r s w → hasApiKey = true →
      (engineScore hasApiKey outcome).1 = ((max 0 (min 100 n) : ℤ) : ℚ)) := by
  refine ⟨?_, ?_, ?_, ?_, ?_⟩
  · cases hasApiKey with
    | false => norm_num [engineScore]
    | true =>
      cases outcome with
      | apiFailure => norm_num [engineScore]
      | otherFailure => norm_num [engineScore]
      | malformedJson => norm_num [engineScore]
      | jsonObject sc r s w =>
        cases sc with
        | none => norm_num [engineScore]
        | some n =>
          have h1 : (0 : ℤ) ≤ max 0 (min 100 n) := le_max_left _ _
          have h2 : max 0 (min 100 n) ≤ (100 : ℤ) := max_le (by norm_num) (min_le_left _ _)
          simp only [engineScore, Bool.not_true, Bool.false_eq_true, if_false]
          exact ⟨by exact_mod_cast h1, by exact_mod_cast h2⟩
  · intro h
    subst h
    norm_num [engineScore]
  · intro h
    subst h
    cases hasApiKey <;> norm_num [engineScore]
  · intro h
    subst h
    cases hasApiKey <;> norm_num [engineScore]
  · intro n r s w h hk
    subst h
    subst hk
    simp [engineScore]

/-- Witness for C6 at a concrete backend outcome. -/
theorem engine_score_safe_witness :
    (engineScore true (.jsonObject (some 150) (some "great") none none)).1 = 100 := by
  have h := (engine_score_safe true
    (.jsonObject (some 150) (some "great") none none)).2.2.2.2
    150 (some "great") none none rfl rfl
  rw [h]
  norm_num

/-- C9: reconciliation leaves every field outside identity, timestamps
and the carry-over set untouched (`frameFields` collects exactly those
untouched fields), and the age filter only excludes: every listing in
the filtered output is an element of the input, unchanged. -/
theorem reconcile_frame_and_filter_preserves
    (store : List Listing) (now : ℕ) (fid : String) (l : Listing)
    (stats : List (String × AreaStats)) (filters : FilterConfig)
    (ls : List Listing) :
    frameFields (reconcileOne store now fid l).1 = frameFields l ∧
    ∀ x ∈ ls.filter (fun y => _passes_age_filter y stats filters), x ∈ ls := by
  constructor
  · cases h : findExisting store l with
    | none =>
      simp only [reconcileOne, h]
      rfl
    | some e =>
      simp only [reconcileOne, h]
      rw [carryScore_frame, carrySchool_frame, carryCommute_frame,
          carryFlood_frame, carryWalk_frame]
      rfl
  · intro x hx
    exact (List.mem_filter.mp hx).1

/-- Witness for C9 at a concrete store, listing and filter input. -/
theorem reconcile_frame_and_filter_preserves_witness :
    frameFields (reconcileOne [] 3 "i" wl1).1 = frameFields wl1 ∧ wl1 ∈ [wl1] :=
  ⟨(reconcile_frame_and_filter_preserves [] 3 "i" wl1 [] {} [wl1]).1,
   (reconcile_frame_and_filter_preserves [] 3 "i" wl1 [] {} [wl1]).2 wl1 (by decide)⟩

/-! ### Range lemmas for the heuristic sub-scores -/

theorem clamp01 (x : ℚ) : 0 ≤ max 0 (min 1 x) ∧ max 0 (min 1 x) ≤ 1 :=
  ⟨le_max_left _ _, max_le (by norm_num) (min_le_left _ _)⟩

theorem score_pve_range (l : Listing) (a : AreaStats) :
    0 ≤ score_price_vs_estimate l a ∧ score_price_vs_estimate l a ≤ 1 := by
  unfold score_price_vs_estimate
  rcases hE : (if optIntTruthy l.redfin_estimate then l.redfin_estimate else l.zestimate)
    with _ | e
  · norm_num
  · by_cases he : e = 0
    · simp only [he, if_pos rfl, if_true]
      norm_num
    · simp only [if_neg he]
      exact clamp01 _

theorem score_ppsf_range (l : Listing) (a : AreaStats) :
    0 ≤ score_price_per_sqft l a ∧ score_price_per_sqft l a ≤ 1 := by
  unfold score_price_per_sqft
  split
  · norm_num
  · exact clamp01 _

theorem score_dom_range (l : Listing) (a : AreaStats)
    (hd : ∀ d, l.days_on_market = some d → 0 ≤ d) :
    0 ≤ score_days_on_market l a ∧ score_days_on_market l a ≤ 1 := by
  unfold score_days_on_market
  rcases hdom : l.days_on_market with _ | d
  · norm_num
  · have hd0 : (0 : ℚ) ≤ (d : ℚ) := by exact_mod_cast hd d hdom
    have hth : (0 : ℚ) < (((max ((match a.median_dom with
        | some m => if m ≠ 0 then m else 30
        | none => 30) * 3) 120 : ℤ)) : ℚ) := by
      have : (120 : ℤ) ≤ max ((match a.median_dom with
        | some m => if m ≠ 0 then m else 30
        | none => 30) * 3) 120 := le_max_right _ _
      have h0 : (0 : ℤ) < max ((match a.median_dom with
        | some m => if m ≠ 0 then m else 30
        | none => 30) * 3) 120 := by omega
      exact_mod_cast h0
    constructor
    · exact le_min (by norm_num) (div_nonneg hd0 hth.le)
    · exact min_le_left _ _

theorem score_reductions_range (l : Listing) (a : AreaStats) :
    0 ≤ score_price_reductions l a ∧ score_price_reductions l a ≤ 1 := by
  unfold score_price_reductions
  split
  · norm_num
  · dsimp only
    split
    · norm_num
    · split
      · norm_num
      · rename_i hneg
        rw [not_le] at hneg
        exact ⟨le_min (by norm_num) (div_nonneg hneg.le (by norm_num)), min_le_left _ _⟩

theorem score_lot_range (l : Listing) (a : AreaStats) :
    0 ≤ score_lot_size l a ∧ score_lot_size l a ≤ 1 := by
  unfold score_lot_size
  split
  · norm_num
  · exact clamp01 _

theorem score_hoa_range (l : Listing) (a : AreaStats) :
    0 ≤ score_hoa l a ∧ score_hoa l a ≤ 1 := by
  unfold score_hoa
  rcases l.hoa_monthly with _ | h
  · norm_num
  · dsimp only
    split_ifs <;> norm_num

theorem score_tax_range (l : Listing) (a : AreaStats) :
    0 ≤ score_tax_rate l a ∧ score_tax_rate l a ≤ 1 := by
  unfold score_tax_rate
  split
  · norm_num
  · exact clamp01 _

theorem score_school_range (l : Listing) (a : AreaStats) :
    0 ≤ score_school_rating l a ∧ score_school_rating l a ≤ 1 := by
  unfold score_school_rating
  rcases l.school_rating with _ | r
  · norm_num
  · exact ⟨le_min (by norm_num) (le_max_left _ _), min_le_left _ _⟩

theorem score_walk_range (l : Listing) (a : AreaStats)
    (hw : ∀ w, l.walk_score = some w → 0 ≤ w ∧ w ≤ 100) :
    0 ≤ score_walk_score l a ∧ score_walk_score l a ≤ 1 := by
  unfold score_walk_score
  rcases hws : l.walk_score with _ | w
  · norm_num
  · obtain ⟨h0, h100⟩ := hw w hws
    have h0Q : (0 : ℚ) ≤ (w : ℚ) := by exact_mod_cast h0
    have h100Q : (w : ℚ) ≤ 100 := by exact_mod_cast h100
    constructor
    · positivity
    · rw [div_le_one (by norm_num)]
      exact h100Q

theorem score_flood_range (l : Listing) (a : AreaStats) :
    0 ≤ score_flood_risk l a ∧ score_flood_risk l a ≤ 1 := by
  unfold score_flood_risk
  rcases l.flood_risk_rating with _ | s
  · norm_num
  · dsimp only
    split_ifs <;> norm_num

theorem score_commute_range (l : Listing) (a : AreaStats) :
    0 ≤ score_commute l a ∧ score_commute l a ≤ 1 := by
  unfold score_commute
  rcases l.commute_minutes with _ | ts
  · norm_num
  · dsimp only
    split
    · norm_num
    · exact clamp01 _

theorem score_age_range (currentYear : ℤ) (l : Listing) (a : AreaStats) :
    0 ≤ score_property_age currentYear l a ∧ score_property_age currentYear l a ≤ 1 := by
  unfold score_property_age
  dsimp only
  split_ifs <;> norm_num

theorem score_bbv_range (l : Listing) (a : AreaStats)
    (hp : 0 ≤ l.price) (hb : ∀ b, l.bedrooms = some b → 0 ≤ b)
    (hba : ∀ b, l.bathrooms = some b → 0 ≤ b) :
    0 ≤ score_bed_bath_value l a ∧ score_bed_bath_value l a ≤ 1 := by
  unfold score_bed_bath_value
  split
  · norm_num
  · rename_i hcond
    rw [not_or] at hcond
    obtain ⟨hbed, hpz⟩ := hcond
    have hpQ : (0 : ℚ) < (l.price : ℚ) := by
      have : 0 < l.price := lt_of_le_of_ne hp (Ne.symm hpz)
      exact_mod_cast this
    have hbedQ : (0 : ℚ) ≤ ((l.bedrooms.getD 0 : ℤ) : ℚ) := by
      rcases hbs : l.bedrooms with _ | b
      · norm_num
      · have := hb b hbs
        simp only [Option.getD_some]
        exact_mod_cast this
    have hbaQ : (0 : ℚ) ≤ l.bathrooms.getD 0 := by
      rcases hbs : l.bathrooms with _ | b
      · norm_num
      · simpa using hba b hbs
    have hroom : (0 : ℚ) ≤ ((l.bedrooms.getD 0 : ℤ) : ℚ) + l.bathrooms.getD 0 :=
      add_nonneg hbedQ hbaQ
    have hv : (0 : ℚ) ≤ (((l.bedrooms.getD 0 : ℤ) : ℚ) + l.bathrooms.getD 0) /
        ((l.price : ℚ) / 100000) :=
      div_nonneg hroom (by positivity)
    constructor
    · exact le_min (by norm_num) (div_nonneg hv (by norm_num))
    · exact min_le_left _ _

theorem score_features_range (l : Listing) (a : AreaStats) :
    0 ≤ score_features l a ∧ score_features l a ≤ 1 := by
  unfold score_features
  split_ifs <;> norm_num

/-- C5 counterexample: the heuristic sub-scores do not all return the
neutral 0.5 on missing data, and are not all bounded by 1:
`score_price_reductions` returns 0.0 with no price history,
`score_hoa` returns 1.0 with no HOA fee, and `score_walk_score`
returns 1.5 for a stored walk score of 150. -/
theorem criteria_neutral_default_cex :
    score_price_reductions wl1 statsZ = 0 ∧
    score_price_reductions wl1 statsZ ≠ 1/2 ∧
    score_hoa wl1 statsZ = 1 ∧
    score_hoa wl1 statsZ ≠ 1/2 ∧
    score_walk_score walk150 statsZ = 3/2 ∧
    ¬ score_walk_score walk150 statsZ ≤ 1 := by
  have hwalk : score_walk_score walk150 statsZ = 3/2 := by
    show ((150 : ℤ) : ℚ) / 100 = 3/2
    norm_num
  refine ⟨rfl, ?_, rfl, ?_, hwalk, ?_⟩
  · rw [show score_price_reductions wl1 statsZ = 0 from rfl]
    norm_num
  · rw [show score_hoa wl1 statsZ = 1 from rfl]
    norm_num
  · rw [hwalk]
    norm_num

/-- C5 (amended): every sub-score lies in `[0, 1]` provided the
listing's stored fields are in their documented ranges (walk score
0–100, DOM ≥ 0, price ≥ 0, bed/bath counts ≥ 0); on missing required
data the functions return the neutral 0.5 except `score_price_reductions`
(0.0), `score_hoa` (1.0 — no HOA is best), and `score_features`
(additive bonus starting from 0.0). -/
theorem criteria_range_and_defaults (l : Listing) (a : AreaStats) (currentYear : ℤ)
    (hw : ∀ w, l.walk_score = some w → 0 ≤ w ∧ w ≤ 100)
    (hd : ∀ d, l.days_on_market = some d → 0 ≤ d)
    (hp : 0 ≤ l.price)
    (hb : ∀ b, l.bedrooms = some b → 0 ≤ b)
    (hba : ∀ b, l.bathrooms = some b → 0 ≤ b) :
    ((0 ≤ score_price_vs_estimate l a ∧ score_price_vs_estimate l a ≤ 1) ∧
     (0 ≤ score_price_per_sqft l a ∧ score_price_per_sqft l a ≤ 1) ∧
     (0 ≤ score_days_on_market l a ∧ score_days_on_market l a ≤ 1) ∧
     (0 ≤ score_price_reductions l a ∧ score_price_reductions l a ≤ 1) ∧
     (0 ≤ score_lot_size l a ∧ score_lot_size l a ≤ 1) ∧
     (0 ≤ score_hoa l a ∧ score_hoa l a ≤ 1) ∧
     (0 ≤ score_tax_rate l a ∧ score_tax_rate l a ≤ 1) ∧
     (0 ≤ score_school_rating l a ∧ score_school_rating l a ≤ 1) ∧
     (0 ≤ score_walk_score l a ∧ score_walk_score l a ≤ 1) ∧
     (0 ≤ score_flood_risk l a ∧ score_flood_risk l a ≤ 1) ∧
     (0 ≤ score_commute l a ∧ score_commute l a ≤ 1) ∧
     (0 ≤ score_property_age currentYear l a ∧ score_property_age currentYear l a ≤ 1) ∧
     (0 ≤ score_bed_bath_value l a ∧ score_bed_bath_value l a ≤ 1) ∧
     (0 ≤ score_features l a ∧ score_features l a ≤ 1)) ∧
    ((l.redfin_estimate = none → l.zestimate = none → score_price_vs_estimate l a = 1/2) ∧
     (l.sqft = none → score_price_per_sqft l a = 1/2) ∧
     (l.days_on_market = none → score_days_on_market l a = 1/2) ∧
     (l.price_history = [] → score_price_reductions l a = 0) ∧
     (l.lot_sqft = none → score_lot_size l a = 1/2) ∧
     (l.hoa_monthly = none → score_hoa l a = 1) ∧
     (l.annual_tax = none → score_tax_rate l a = 1/2) ∧
     (l.school_rating = none → score_school_rating l a = 1/2) ∧
     (l.walk_score = none → score_walk_score l a = 1/2) ∧
     (l.flood_risk_rating = none → score_flood_risk l a = 1/2) ∧
     (l.commute_minutes = none → score_commute l a = 1/2) ∧
     (l.year_built = none → score_property_age currentYear l a = 1/2) ∧
     (l.bedrooms = none → score_bed_bath_value l a = 1/2) ∧
     (l.has_garage = none → l.has_basement = none → l.has_pool = none →
       l.has_fireplace = none → score_features l a = 0)) := by
  constructor
  · exact ⟨score_pve_range l a, score_ppsf_range l a, score_dom_range l a hd,
      score_reductions_range l a, score_lot_range l a, score_hoa_range l a,
      score_tax_range l a, score_school_range l a, score_walk_range l a hw,
      score_flood_range l a, score_commute_range l a, score_age_range currentYear l a,
      score_bbv_range l a hp hb hba, score_features_range l a⟩
  · refine ⟨?_, ?_, ?_, ?_, ?_, ?_, ?_, ?_, ?_, ?_, ?_, ?_, ?_, ?_⟩
    · intro h1 h2
      simp [score_price_vs_estimate, h1, h2, optIntTruthy]
    · intro h
      simp [score_price_per_sqft, h, optIntTruthy]
    · intro h
      simp [score_days_on_market, h]
    · intro h
      simp [score_price_reductions, h]
    · intro h
      simp [score_lot_size, h, optIntTruthy]
    · intro h
      simp [score_hoa, h]
    · intro h
      simp [score_tax_rate, h, optRatTruthy]
    · intro h
      simp [score_school_rating, h]
    · intro h
      simp [score_walk_score, h]
    · intro h
      simp [score_flood_risk, h]
    · intro h
      simp [score_commute, h]
    · intro h
      simp [score_property_age, h, optIntTruthy]
    · intro h
      simp [score_bed_bath_value, h, optIntTruthy]
    · intro h1 h2 h3 h4
      simp [score_features, h1, h2, h3, h4, optBoolTruthy]

/-- Witness for the amended C5 at a concrete listing with empty data. -/
theorem criteria_range_and_defaults_witness :
    0 ≤ score_price_vs_estimate wl1 statsZ ∧ score_price_vs_estimate wl1 statsZ ≤ 1 :=
  (criteria_range_and_defaults wl1 statsZ 2026
    (fun _ h => Option.noConfusion h) (fun _ h => Option.noConfusion h)
    (by decide) (fun _ h => Option.noConfusion h)
    (fun _ h => Option.noConfusion h)).1.1

/-- C7: a listing counts as price-reduced exactly when it has at least
two price-history entries and its current (latest) price is strictly
below the first entry's price — given non-negative prices, the
source's extra `original > 0` test is implied; and the recommended
threshold settings come from the adjusted classification: reductions
above 30% downgrade hot/very-hot to normal, reductions below 10%
upgrade slow/very-slow to normal, and otherwise the raw classification
selects the settings. -/
theorem market_reduced_and_adjustment :
    (∀ l : Listing, 0 ≤ l.price →
      (countsReduced l = true ↔
        2 ≤ l.price_history.length ∧
        l.price < (l.price_history.headD ⟨0, 0, ""⟩).price)) ∧
    (∀ (all new : List Listing) (stats : List (String × AreaStats)) (now : ℕ),
      all.filterMap (fun x => x.days_on_market) ≠ [] →
      (((analyze_market all new stats now).pct_with_reductions > 30 ∧
          ((analyze_market all new stats now).condition = .very_hot ∨
           (analyze_market all new stats now).condition = .hot)) →
        (analyze_market all new stats now).recommended_max_dom_multiplier = 4 ∧
        (analyze_market all new stats now).recommended_max_dom_absolute = 180) ∧
      (¬((analyze_market all new stats now).pct_with_reductions > 30 ∧
          ((analyze_market all new stats now).condition = .very_hot ∨
           (analyze_market all new stats now).condition = .hot)) →
        ((analyze_market all new stats now).pct_with_reductions < 10 ∧
          ((analyze_market all new stats now).condition = .slow ∨
           (analyze_market all new stats now).condition = .very_slow)) →
        (analyze_market all new stats now).recommended_max_dom_multiplier = 4 ∧
        (analyze_market all new stats now).recommended_max_dom_absolute = 180) ∧
      (¬((analyze_market all new stats now).pct_with_reductions > 30 ∧
          ((analyze_market all new stats now).condition = .very_hot ∨
           (analyze_market all new stats now).condition = .hot)) →
        ¬((analyze_market all new stats now).pct_with_reductions < 10 ∧
          ((analyze_market all new stats now).condition = .slow ∨
           (analyze_market all new stats now).condition = .very_slow)) →
        (analyze_market all new stats now).recommended_max_dom_multiplier =
          (RECOMMENDED_SETTINGS (analyze_market all new stats now).condition).max_dom_multiplier ∧
        (analyze_market all new stats now).recommended_max_dom_absolute =
          (RECOMMENDED_SETTINGS (analyze_market all new stats now).condition).max_dom_absolute)) := by
  constructor
  · intro l hp
    unfold countsReduced
    simp only [Bool.and_eq_true, decide_eq_true_eq]
    constructor
    · rintro ⟨h2, _, hlt⟩
      exact ⟨h2, hlt⟩
    · rintro ⟨h2, hlt⟩
      exact ⟨h2, lt_of_le_of_lt hp hlt, hlt⟩
  · intro all new stats now hne
    have hlen : all.length ≠ 0 := by
      cases all with
      | nil => exact absurd rfl hne
      | cons a t => simp
    simp only [analyze_market, if_neg hne, if_pos hlen]
    split_ifs with h1 h2
    · exact ⟨fun _ => ⟨rfl, rfl⟩, fun _ _ => ⟨rfl, rfl⟩, fun hn1 _ => absurd h1 hn1⟩
    · exact ⟨fun hp1 => absurd hp1 h1, fun _ _ => ⟨rfl, rfl⟩, fun _ hn2 => absurd h2 hn2⟩
    · exact ⟨fun hp1 => absurd hp1 h1, fun _ hp2 => absurd hp2 h2, fun _ _ => ⟨rfl, rfl⟩⟩

/-- Witness for C7: three listings with DOM 10 (raw classification
very-hot) of which two are price-reduced (66% > 30%) get the "normal"
recommendation (multiplier 4.0, cap 180). -/
theorem market_reduced_and_adjustment_witness :
    (analyze_market fxAll [] [] 0).recommended_max_dom_absolute = 180 ∧
    countsReduced fxR1 = true := by
  have hne : fxAll.filterMap (fun x => x.days_on_market) ≠ [] := by decide
  have hpct : (analyze_market fxAll [] [] 0).pct_with_reductions = 200/3 := by
    simp only [analyze_market, if_neg hne]
    show (if fxAll.length ≠ 0
      then ((fxAll.filter countsReduced).length : ℚ) / (fxAll.length : ℚ) * 100
      else 0) = 200/3
    rw [show fxAll.filter countsReduced = [fxR1, fxR2] from rfl]
    norm_num [fxAll]
  have hcond : (analyze_market fxAll [] [] 0).condition = .very_hot := by
    simp only [analyze_market, if_neg hne]
    show _classify_market
      (pyMedian ((fxAll.filterMap fun x => x.days_on_market).insertionSort (· ≤ ·))) =
      MarketCondition.very_hot
    rw [show pyMedian ((fxAll.filterMap fun x => x.days_on_market).insertionSort (· ≤ ·)) =
      ((10 : ℤ) : ℚ) from rfl]
    norm_num [_classify_market]
  have h180 := ((market_reduced_and_adjustment.2 fxAll [] [] 0 hne).1
    ⟨by rw [hpct]; norm_num, Or.inl hcond⟩).2
  refine ⟨h180, ?_⟩
  exact (market_reduced_and_adjustment.1 fxR1 (by decide)).mpr ⟨by decide, by decide⟩

/-- C2 counterexample: two listings both priced at −100 with identical
coordinates and bed/bath counts are geo-matched by the deduplicator's
pair test — a negative price on both sides does not disqualify the
pair, contradicting the claim. -/
theorem geo_negative_price_cex :
    gNegA.price < 0 ∧ gNegB.price < 0 ∧ pairMatch gNegA gNegB = true := by
  refine ⟨by decide, by decide, ?_⟩
  simp only [pairMatch, _is_geo_match, _is_price_similar, _beds_baths_match,
    gNegA, gNegB]
  norm_num

/-- Split of the deduplicator's pair test into its three source
conditions. -/
theorem pairMatch_split (a b : Listing) :
    pairMatch a b = true ↔
      _is_geo_match a b = true ∧ _is_price_similar a b = true ∧
      _beds_baths_match a b = true := by
  simp [pairMatch, Bool.and_eq_true, and_assoc]

/-- The geo proximity test, characterized. -/
theorem geo_match_iff (a b : Listing) :
    _is_geo_match a b = true ↔
      ∃ la loa lb lob, a.latitude = some la ∧ a.longitude = some loa ∧
        b.latitude = some lb ∧ b.longitude = some lob ∧
        |la - lb| < 1/10000 ∧ |loa - lob| < 1/10000 := by
  unfold _is_geo_match
  rcases hla : a.latitude with _ | la <;>
    rcases hloa : a.longitude with _ | loa <;>
      rcases hlb : b.latitude with _ | lb <;>
        rcases hlob : b.longitude with _ | lob <;>
          simp_all

/-- The price similarity test, characterized. -/
theorem price_similar_iff (a b : Listing) :
    _is_price_similar a b = true ↔
      a.price ≠ 0 ∧ b.price ≠ 0 ∧
      (min a.price b.price : ℚ) / (max a.price b.price : ℚ) ≥ 1 - 1/20 := by
  unfold _is_price_similar
  split_ifs with h
  · rcases h with h | h <;> simp_all
  · push_neg at h
    simp [h.1, h.2]

/-- The bed/bath agreement test, characterized. -/
theorem beds_baths_iff (a b : Listing) :
    _beds_baths_match a b = true ↔
      (∀ x y, a.bedrooms = some x → b.bedrooms = some y → x = y) ∧
      (∀ x y, a.bathrooms = some x → b.bathrooms = some y → x = y) := by
  unfold _beds_baths_match
  rcases hb1 : a.bedrooms with _ | x <;> rcases hb2 : b.bedrooms with _ | y <;>
    rcases hc1 : a.bathrooms with _ | u <;> rcases hc2 : b.bathrooms with _ | v <;>
      simp_all

/-- C2 (amended): the deduplicator geo-matches a pair of singletons iff
coordinates are present on both sides and within 0.0001°, the price
ratio (min/max over ℚ) is at least 0.95, and bedrooms/bathrooms agree
wherever both are known; a zero price on either side disqualifies the
pair (a negative price is not rejected outright — see the
counterexample). -/
theorem geo_match_characterization (a b : Listing) :
    (pairMatch a b = true ↔
      ((∃ la loa lb lob, a.latitude = some la ∧ a.longitude = some loa ∧
          b.latitude = some lb ∧ b.longitude = some lob ∧
          |la - lb| < 1/10000 ∧ |loa - lob| < 1/10000) ∧
       (a.price ≠ 0 ∧ b.price ≠ 0 ∧
         (min a.price b.price : ℚ) / (max a.price b.price : ℚ) ≥ 19/20) ∧
       (∀ x y, a.bedrooms = some x → b.bedrooms = some y → x = y) ∧
       (∀ x y, a.bathrooms = some x → b.bathrooms = some y → x = y))) ∧
    (a.price = 0 ∨ b.price = 0 → pairMatch a b = false) := by
  constructor
  · rw [pairMatch_split, geo_match_iff, price_similar_iff, beds_baths_iff]
    rw [show (19/20 : ℚ) = 1 - 1/20 by norm_num]
  · intro h
    simp only [pairMatch, _is_price_similar, if_pos h, Bool.and_false, Bool.false_and]

/-- Witness for the amended C2: a zero price on one side prevents the
match. -/
theorem geo_match_characterization_witness :
    pairMatch zZeroA zZeroB = false :=
  (geo_match_characterization zZeroA zZeroB).2 (Or.inl rfl)

/-- Characters of any token produced by the whitespace tokenizer come
from the input (or the accumulator). -/
theorem wsTokensAux_subset (cs : List Char) :
    ∀ acc t, t ∈ wsTokensAux cs acc → ∀ ch ∈ t, ch ∈ cs ∨ ch ∈ acc := by
  induction cs with
  | nil =>
    intro acc t ht ch hch
    simp only [wsTokensAux] at ht
    split at ht
    · cases ht
    · rcases List.mem_singleton.mp ht with rfl
      exact Or.inr (List.mem_reverse.mp hch)
  | cons c cs ih =>
    intro acc t ht ch hch
    simp only [wsTokensAux] at ht
    by_cases hw : c.isWhitespace
    · rw [if_pos hw] at ht
      by_cases hacc : acc = []
      · rw [if_pos hacc] at ht
        rcases ih [] t ht ch hch with h | h
        · exact Or.inl (List.mem_cons_of_mem _ h)
        · cases h
      · rw [if_neg hacc] at ht
        rcases List.mem_cons.mp ht with rfl | ht'
        · exact Or.inr (List.mem_reverse.mp hch)
        · rcases ih [] t ht' ch hch with h | h
          · exact Or.inl (List.mem_cons_of_mem _ h)
          · cases h
    · rw [if_neg hw] at ht
      rcases ih (c :: acc) t ht ch hch with h | h
      · exact Or.inl (List.mem_cons_of_mem _ h)
      · rcases List.mem_cons.mp h with rfl | h'
        · exact Or.inl (List.mem_cons_self _ _)
        · exact Or.inr h'

/-- Characters of a separator-join come from the separator or from one
of the joined strings. -/
theorem joinWith_chars (sep : String) :
    ∀ ts : List String, ∀ ch ∈ (joinWith sep ts).data,
      ch ∈ sep.data ∨ ∃ t ∈ ts, ch ∈ t.data := by
  intro ts
  induction ts with
  | nil =>
    intro ch hch
    cases hch
  | cons x xs ih =>
    cases xs with
    | nil =>
      intro ch hch
      exact Or.inr ⟨x, List.mem_cons_self _ _, hch⟩
    | cons y ys =>
      intro ch hch
      simp only [joinWith] at hch
      rw [String.data_append, String.data_append] at hch
      rcases List.mem_append.mp hch with h | h
      · rcases List.mem_append.mp h with h1 | h2
        · exact Or.inr ⟨x, List.mem_cons_self _ _, h1⟩
        · exact Or.inl h2
      · rcases ih ch h with h' | ⟨t, ht, hcht⟩
        · exact Or.inl h'
        · exact Or.inr ⟨t, List.mem_cons_of_mem _ ht, hcht⟩

/-- No character of the normalized address component is one of the
stripped punctuation characters. -/
theorem normalize_address_strips (address : String) :
    ∀ ch ∈ (joinWith " "
        ((pySplitWs (removeChars strippedPunct (pyStrip (pyLower address)))).map
          (tableGetD STREET_ABBREVS))).data,
      strippedPunct ch = false := by
  intro ch hch
  rcases joinWith_chars " " _ ch hch with h | ⟨t, ht, hcht⟩
  · have hsp : ch = ' ' := by simpa using h
    subst hsp
    rfl
  · rcases List.mem_map.mp ht with ⟨t0, ht0, rfl⟩
    unfold tableGetD at hcht
    rcases hf : STREET_ABBREVS.find? (fun p => p.1 = t0) with _ | p
    · rw [hf] at hcht
      unfold pySplitWs at ht0
      rcases List.mem_map.mp ht0 with ⟨csl, hcsl, rfl⟩
      have hsub := wsTokensAux_subset _ [] csl hcsl ch hcht
      rcases hsub with h | h
      · unfold removeChars at h
        dsimp at h
        rcases List.mem_filter.mp h with ⟨_, hp⟩
        simpa using hp
      · cases h
    · rw [hf] at hcht
      have hp := List.mem_of_find?_eq_some hf
      have hclean : ∀ q ∈ STREET_ABBREVS, ∀ c ∈ q.2.data, strippedPunct c = false := by
        decide
      exact hclean p hp ch hcht

/-- C8 counterexample: the normalizer does not strip all punctuation
except `#` — a semicolon survives, so `normalize_address` differs from
the spec-worded `normalizeAddressSpec` on a concrete address. -/
theorem normalize_strips_only_listed_punct_cex :
    normalize_address "1; Main Street" "Town" "tx" "123456" ≠
      normalizeAddressSpec "1; Main Street" "Town" "tx" "123456" ∧
    normalize_address "1; Main Street" "Town" "tx" "123456" =
      "1; main st|town|TX|12345" ∧
    normalizeAddressSpec "1; Main Street" "Town" "tx" "123456" =
      "1 main st|town|TX|12345" := by
  refine ⟨?_, rfl, rfl⟩
  decide

/-- C8 (amended): `normalize_address` lower-cases and trims the
address, removes exactly the characters `.`, `,` and apostrophe
(leaving other punctuation such as `;` intact), rewrites each
whitespace token through `STREET_ABBREVS`, and returns
`address|city|state|zip5` with city lower-cased, state upper-cased and
zip truncated to its first five characters; no stripped punctuation
character survives in the address component. -/
theorem normalize_address_characterization (address city state zip_code : String) :
    (normalize_address address city state zip_code =
      joinWith " " ((pySplitWs (removeChars strippedPunct (pyStrip (pyLower address)))).map
        (tableGetD STREET_ABBREVS)) ++ "|" ++ pyStrip (pyLower city) ++ "|" ++
      pyStrip (pyUpper state) ++ "|" ++ pyTake 5 (pyStrip zip_code)) ∧
    (strippedPunct '.' = true ∧ strippedPunct ',' = true ∧
     strippedPunct '\'' = true ∧ strippedPunct ';' = false ∧
     strippedPunct '#' = false) ∧
    (∀ ch ∈ (joinWith " "
        ((pySplitWs (removeChars strippedPunct (pyStrip (pyLower address)))).map
          (tableGetD STREET_ABBREVS))).data,
      strippedPunct ch = false) :=
  ⟨rfl, ⟨rfl, rfl, rfl, rfl, rfl⟩, normalize_address_strips address⟩

/-- Witness for the amended C8: the semicolon that survives in the
normalized component is indeed not a stripped character. -/
theorem normalize_address_characterization_witness :
    strippedPunct ';' = false :=
  (normalize_address_characterization "1; Main Street" "Town" "tx" "123456").2.2
    ';' (by decide)

/-! ### Grouping lemmas (deduplicator phases 2–4) -/

/-- Every member of a group after `addToGroups` is the inserted listing
or a member of a prior group. -/
theorem addToGroups_mem (k : String) (l : Listing) :
    ∀ gs, ∀ p ∈ addToGroups k l gs, ∀ x ∈ p.2, x = l ∨ ∃ q ∈ gs, x ∈ q.2 := by
  intro gs
  induction gs with
  | nil =>
    intro p hp x hx
    rcases List.mem_singleton.mp hp with rfl
    rcases List.mem_singleton.mp hx with rfl
    exact Or.inl rfl
  | cons q tl ih =>
    obtain ⟨k', g⟩ := q
    intro p hp x hx
    simp only [addToGroups] at hp
    split_ifs at hp with hk
    · rcases List.mem_cons.mp hp with rfl | hp'
      · rcases List.mem_append.mp hx with h | h
        · exact Or.inr ⟨(k', g), List.mem_cons_self _ _, h⟩
        · rcases List.mem_singleton.mp h with rfl
          exact Or.inl rfl
      · exact Or.inr ⟨p, List.mem_cons_of_mem _ hp', hx⟩
    · rcases List.mem_cons.mp hp with rfl | hp'
      · exact Or.inr ⟨(k', g), List.mem_cons_self _ _, hx⟩
      · rcases ih p hp' x hx with h | ⟨q', hq', hxq⟩
        · exact Or.inl h
        · exact Or.inr ⟨q', List.mem_cons_of_mem _ hq', hxq⟩

/-- `addToGroups` grows the total member count by exactly one. -/
theorem addToGroups_sizes (k : String) (l : Listing) :
    ∀ gs, ((addToGroups k l gs).map (fun p => p.2.length)).sum =
      ((gs.map (fun p => p.2.length)).sum) + 1 := by
  intro gs
  induction gs with
  | nil => simp [addToGroups]
  | cons q tl ih =>
    obtain ⟨k', g⟩ := q
    simp only [addToGroups]
    split_ifs with hk
    · simp only [List.map_cons, List.sum_cons, List.length_append,
        List.length_singleton]
      omega
    · simp only [List.map_cons, List.sum_cons, ih]
      omega

/-- `addToGroups` keeps every group nonempty. -/
theorem addToGroups_nonempty (k : String) (l : Listing) :
    ∀ gs, (∀ p ∈ gs, p.2 ≠ []) → ∀ p ∈ addToGroups k l gs, p.2 ≠ [] := by
  intro gs
  induction gs with
  | nil =>
    intro _ p hp
    rcases List.mem_singleton.mp hp with rfl
    simp
  | cons q tl ih =>
    obtain ⟨k', g⟩ := q
    intro hne p hp
    simp only [addToGroups] at hp
    split_ifs at hp with hk
    · rcases List.mem_cons.mp hp with rfl | hp'
      · simp
      · exact hne p (List.mem_cons_of_mem _ hp')
    · rcases List.mem_cons.mp hp with rfl | hp'
      · exact hne (k', g) (List.mem_cons_self _ _)
      · exact ih (fun q' hq' => hne q' (List.mem_cons_of_mem _ hq')) p hp'

/-- The grouping fold preserves any member predicate. -/
theorem buildGroups_go_mem (fp : String → String) (P : Listing → Prop) :
    ∀ (ls : List Listing) (gs : List (String × List Listing)),
      (∀ p ∈ gs, ∀ x ∈ p.2, P x) → (∀ l ∈ ls, P l) →
      ∀ p ∈ ls.foldl (fun acc l => addToGroups (fpOf fp l) l acc) gs, ∀ x ∈ p.2, P x := by
  intro ls
  induction ls with
  | nil =>
    intro gs hgs _ p hp
    exact hgs p hp
  | cons l tl ih =>
    intro gs hgs hls
    simp only [List.foldl_cons]
    apply ih
    · intro p hp x hx
      rcases addToGroups_mem _ _ _ p hp x hx with rfl | ⟨q, hq, hxq⟩
      · exact hls _ (List.mem_cons_self _ _)
      · exact hgs q hq x hxq
    · intro y hy
      exact hls y (List.mem_cons_of_mem _ hy)

/-- Every group member of `buildGroups` is an input listing. -/
theorem buildGroups_mem (fp : String → String) (ls : List Listing) :
    ∀ p ∈ buildGroups fp ls, ∀ x ∈ p.2, x ∈ ls :=
  buildGroups_go_mem fp (· ∈ ls) ls [] (by simp) (fun _ h => h)

/-- The grouping fold adds one member per listing. -/
theorem buildGroups_go_sizes (fp : String → String) :
    ∀ (ls : List Listing) (gs : List (String × List Listing)),
      (((ls.foldl (fun acc l => addToGroups (fpOf fp l) l acc) gs).map
        (fun p => p.2.length)).sum) =
      ((gs.map (fun p => p.2.length)).sum) + ls.length := by
  intro ls
  induction ls with
  | nil => simp
  | cons l tl ih =>
    intro gs
    simp only [List.foldl_cons, ih, addToGroups_sizes, List.length_cons]
    omega

/-- `buildGroups` partitions the input: group sizes sum to the input
length. -/
theorem buildGroups_sizes (fp : String → String) (ls : List Listing) :
    ((buildGroups fp ls).map (fun p => p.2.length)).sum = ls.length := by
  unfold buildGroups
  rw [buildGroups_go_sizes]
  simp

/-- `buildGroups` never creates an empty group. -/
theorem buildGroups_go_nonempty (fp : String → String) :
    ∀ (ls : List Listing) (gs : List (String × List Listing)),
      (∀ p ∈ gs, p.2 ≠ []) →
      ∀ p ∈ ls.foldl (fun acc l => addToGroups (fpOf fp l) l acc) gs, p.2 ≠ [] := by
  intro ls
  induction ls with
  | nil =>
    intro gs hgs p hp
    exact hgs p hp
  | cons l tl ih =>
    intro gs hgs
    simp only [List.foldl_cons]
    exact ih _ (addToGroups_nonempty _ _ _ hgs)

/-- All groups of `buildGroups` are nonempty. -/
theorem buildGroups_nonempty (fp : String → String) (ls : List Listing) :
    ∀ p ∈ buildGroups fp ls, p.2 ≠ [] :=
  buildGroups_go_nonempty fp ls [] (by simp)

/-- A singleton of the grouping is the sole member of some group. -/
theorem singletonsOf_mem (gs : List (String × List Listing)) :
    ∀ x ∈ singletonsOf gs, ∃ p ∈ gs, p.2 = [x] := by
  intro x hx
  rcases List.mem_filterMap.mp hx with ⟨p, hp, hfx⟩
  refine ⟨p, hp, ?_⟩
  rcases h2 : p.2 with _ | ⟨a, _ | ⟨b, r⟩⟩ <;> rw [h2] at hfx <;> simp_all

/-- Each group contributes at most one output listing: one singleton or
one multi-group. -/
theorem sing_multi_le_len (gs : List (String × List Listing)) :
    (singletonsOf gs).length + (multiOf gs).length ≤ gs.length := by
  induction gs with
  | nil => simp [singletonsOf, multiOf]
  | cons p tl ih =>
    rcases h2 : p.2 with _ | ⟨a, _ | ⟨b, r⟩⟩
    · simp only [singletonsOf, multiOf, List.filterMap_cons, List.filter_cons, h2,
        List.length_nil, List.length_cons]
      simp only [singletonsOf, multiOf] at ih
      norm_num
      omega
    · simp only [singletonsOf, multiOf, List.filterMap_cons, List.filter_cons, h2,
        List.length_singleton, List.length_cons]
      simp only [singletonsOf, multiOf] at ih
      norm_num
      omega
    · simp only [singletonsOf, multiOf, List.filterMap_cons, List.filter_cons, h2,
        List.length_cons] at ih ⊢
      norm_num
      omega

/-- A list of nonempty groups has at least as many members as groups. -/
theorem len_le_sizes (gs : List (String × List Listing))
    (hne : ∀ p ∈ gs, p.2 ≠ []) :
    gs.length ≤ ((gs.map (fun p => p.2.length)).sum) := by
  induction gs with
  | nil => simp
  | cons p tl ih =>
    have hp1 : 1 ≤ p.2.length :=
      List.length_pos.mpr (hne p (List.mem_cons_self _ _))
    have htl := ih (fun q hq => hne q (List.mem_cons_of_mem _ hq))
    simp only [List.length_cons, List.map_cons, List.sum_cons]
    omega

/-! ### Geo-pass lemmas -/

/-- Members after `appendToGroup` are the appended listing or prior
members. -/
theorem appendToGroup_mem (k : String) (b : Listing) :
    ∀ gs, ∀ p ∈ appendToGroup k b gs, ∀ x ∈ p.2, x = b ∨ ∃ q ∈ gs, x ∈ q.2 := by
  intro gs
  induction gs with
  | nil =>
    intro p hp
    cases hp
  | cons q tl ih =>
    obtain ⟨k', g⟩ := q
    intro p hp x hx
    simp only [appendToGroup] at hp
    split_ifs at hp with hk
    · rcases List.mem_cons.mp hp with rfl | hp'
      · rcases List.mem_append.mp hx with h | h
        · exact Or.inr ⟨(k', g), List.mem_cons_self _ _, h⟩
        · rcases List.mem_singleton.mp h with rfl
          exact Or.inl rfl
      · exact Or.inr ⟨p, List.mem_cons_of_mem _ hp', hx⟩
    · rcases List.mem_cons.mp hp with rfl | hp'
      · exact Or.inr ⟨(k', g), List.mem_cons_self _ _, hx⟩
      · rcases ih p hp' x hx with h | ⟨q', hq', hxq⟩
        · exact Or.inl h
        · exact Or.inr ⟨q', List.mem_cons_of_mem _ hq', hxq⟩

/-- `appendToGroup` keeps groups nonempty. -/
theorem appendToGroup_nonempty (k : String) (b : Listing) :
    ∀ gs, (∀ p ∈ gs, p.2 ≠ []) → ∀ p ∈ appendToGroup k b gs, p.2 ≠ [] := by
  intro gs
  induction gs with
  | nil =>
    intro _ p hp
    cases hp
  | cons q tl ih =>
    obtain ⟨k', g⟩ := q
    intro hne p hp
    simp only [appendToGroup] at hp
    split_ifs at hp with hk
    · rcases List.mem_cons.mp hp with rfl | hp'
      · simp
      · exact hne p (List.mem_cons_of_mem _ hp')
    · rcases List.mem_cons.mp hp with rfl | hp'
      · exact hne (k', g) (List.mem_cons_self _ _)
      · exact ih (fun q' hq' => hne q' (List.mem_cons_of_mem _ hq')) p hp'

/-- `appendToGroup` does not change the number of groups. -/
theorem appendToGroup_length (k : String) (b : Listing) :
    ∀ gs, (appendToGroup k b gs).length = gs.length := by
  intro gs
  induction gs with
  | nil => rfl
  | cons q tl ih =>
    obtain ⟨k', g⟩ := q
    simp only [appendToGroup]
    split_ifs <;> simp [ih]

/-- `addIdx` contains the added index. -/
theorem mem_addIdx (n : ℕ) (m : List ℕ) : n ∈ addIdx n m := by
  unfold addIdx
  split_ifs with h
  · exact h
  · exact List.mem_cons_self _ _

/-- `addIdx` keeps prior members. -/
theorem addIdx_sub (n : ℕ) (m : List ℕ) : ∀ x ∈ m, x ∈ addIdx n m := by
  intro x hx
  unfold addIdx
  split_ifs with h
  · exact hx
  · exact List.mem_cons_of_mem _ hx

/-- The inner geo loop preserves nonemptiness and any member predicate
of the multi-group dict. -/
theorem geoInner_inv (fp : String → String) (P : Listing → Prop) (a : Listing)
    (i : ℕ) (hPa : P a) :
    ∀ (js : List (ℕ × Listing)) (st : GeoState),
      (∀ jb ∈ js, P jb.2) →
      (∀ p ∈ st.multi, p.2 ≠ [] ∧ ∀ x ∈ p.2, P x) →
      ∀ p ∈ (geoInner fp a i js st).multi, p.2 ≠ [] ∧ ∀ x ∈ p.2, P x := by
  intro js
  induction js with
  | nil =>
    intro st _ hst
    exact hst
  | cons jb rest ih =>
    obtain ⟨j, b⟩ := jb
    intro st hjs hst
    simp only [geoInner]
    split_ifs with hj hm
    · exact ih st (fun q hq => hjs q (List.mem_cons_of_mem _ hq)) hst
    · apply ih _ (fun q hq => hjs q (List.mem_cons_of_mem _ hq))
      intro p hp
      simp only [appendGeo] at hp
      split_ifs at hp with hk
      · constructor
        · exact appendToGroup_nonempty _ _ _ (fun q hq => (hst q hq).1) p hp
        · intro x hx
          rcases appendToGroup_mem _ _ _ p hp x hx with rfl | ⟨q, hq, hxq⟩
          · exact hjs (j, _) (List.mem_cons_self _ _)
          · exact (hst q hq).2 x hxq
      · rcases List.mem_append.mp hp with hp' | hp'
        · exact hst p hp'
        · rcases List.mem_singleton.mp hp' with rfl
          refine ⟨by simp, ?_⟩
          intro x hx
          rcases List.mem_cons.mp hx with rfl | hx'
          · exact hPa
          · rcases List.mem_singleton.mp hx' with rfl
            exact hjs (j, _) (List.mem_cons_self _ _)
    · exact ih st (fun q hq => hjs q (List.mem_cons_of_mem _ hq)) hst

/-- The outer geo loop preserves nonemptiness and any member predicate
of the multi-group dict. -/
theorem geoOuter_inv (fp : String → String) (P : Listing → Prop) :
    ∀ (E : List (ℕ × Listing)) (st : GeoState),
      (∀ p ∈ E, P p.2) →
      (∀ p ∈ st.multi, p.2 ≠ [] ∧ ∀ x ∈ p.2, P x) →
      ∀ p ∈ (geoOuter fp E st).multi, p.2 ≠ [] ∧ ∀ x ∈ p.2, P x := by
  intro E
  induction E with
  | nil =>
    intro st _ hst
    exact hst
  | cons ia rest ih =>
    obtain ⟨i, a⟩ := ia
    intro st hE hst
    simp only [geoOuter]
    split_ifs with hi
    · exact ih st (fun q hq => hE q (List.mem_cons_of_mem _ hq)) hst
    · apply ih _ (fun q hq => hE q (List.mem_cons_of_mem _ hq))
      exact geoInner_inv fp P a i (hE (i, a) (List.mem_cons_self _ _)) rest st
        (fun q hq => hE q (List.mem_cons_of_mem _ hq)) hst

/-- Filtering by a stronger predicate yields at most as many elements. -/
theorem filter_length_le {α : Type} (p q : α → Bool)
    (himp : ∀ x, q x = true → p x = true) :
    ∀ E : List α, (E.filter q).length ≤ (E.filter p).length := by
  intro E
  induction E with
  | nil => simp
  | cons y t ih =>
    simp only [List.filter_cons]
    cases hqy : q y
    · cases hpy : p y
      · simp only [Bool.false_eq_true, if_false]
        exact ih
      · simp only [Bool.false_eq_true, if_false, if_true, List.length_cons]
        omega
    · rw [himp y hqy]
      simp only [if_true, List.length_cons]
      omega

/-- Filtering by a strictly stronger predicate (failing on a present
element that the weaker predicate accepts) yields strictly fewer
elements. -/
theorem filter_length_lt {α : Type} (p q : α → Bool)
    (himp : ∀ x, q x = true → p x = true) :
    ∀ (E : List α) (x : α), x ∈ E → p x = true → q x = false →
      (E.filter q).length < (E.filter p).length := by
  intro E
  induction E with
  | nil =>
    intro x hx
    cases hx
  | cons y t ih =>
    intro x hx hpx hqx
    rcases List.mem_cons.mp hx with rfl | hxt
    · simp only [List.filter_cons, hpx, hqx, Bool.false_eq_true, if_false,
        if_true, List.length_cons]
      have := filter_length_le p q himp t
      omega
    · simp only [List.filter_cons]
      cases hqy : q y
      · cases hpy : p y
        · simp only [Bool.false_eq_true, if_false]
          exact ih x hxt hpx hqx
        · have := ih x hxt hpx hqx
          simp only [Bool.false_eq_true, if_false, if_true, List.length_cons]
          omega
      · rw [himp y hqy]
        have := ih x hxt hpx hqx
        simp only [if_true, List.length_cons]
        omega

/-- `List.contains` agrees with membership on ℕ. -/
theorem contains_iff (m : List ℕ) (n : ℕ) : m.contains n = true ↔ n ∈ m := by
  simp

/-- Growing the merged set cannot increase the unmerged count. -/
theorem countUnmerged_mono (E : List (ℕ × Listing)) (m m' : List ℕ)
    (hsub : ∀ n, n ∈ m → n ∈ m') :
    countUnmerged E m' ≤ countUnmerged E m := by
  unfold countUnmerged
  apply filter_length_le
  intro x hx
  cases hc : m.contains x.1
  · rfl
  · have h1 := hsub x.1 ((contains_iff m x.1).mp hc)
    rw [(contains_iff m' x.1).mpr h1] at hx
    cases hx

/-- Newly merging an enumerated singleton strictly decreases the
unmerged count. -/
theorem countUnmerged_strict (E : List (ℕ × Listing)) (m m' : List ℕ)
    (hsub : ∀ n, n ∈ m → n ∈ m') (j : ℕ) (b : Listing)
    (hjE : (j, b) ∈ E) (hjm : j ∉ m) (hjm' : j ∈ m') :
    countUnmerged E m' < countUnmerged E m := by
  unfold countUnmerged
  apply filter_length_lt _ _ ?himp E (j, b) hjE ?hp ?hq
  case himp =>
    intro x hx
    cases hc : m.contains x.1
    · rfl
    · have h1 := hsub x.1 ((contains_iff m x.1).mp hc)
      rw [(contains_iff m' x.1).mpr h1] at hx
      cases hx
  case hp =>
    cases hc : m.contains j
    · rfl
    · exact absurd ((contains_iff m j).mp hc) hjm
  case hq =>
    rw [(contains_iff m' j).mpr hjm']
    rfl

/-- The inner geo loop does not increase groups-plus-unmerged. -/
theorem geoInner_phi (fp : String → String) (a : Listing) (i : ℕ)
    (E : List (ℕ × Listing)) :
    ∀ (js : List (ℕ × Listing)) (st : GeoState), (∀ jb ∈ js, jb ∈ E) →
      (geoInner fp a i js st).multi.length +
        countUnmerged E (geoInner fp a i js st).merged ≤
      st.multi.length + countUnmerged E st.merged := by
  intro js
  induction js with
  | nil =>
    intro st _
    exact le_refl _
  | cons jb rest ih =>
    obtain ⟨j, b⟩ := jb
    intro st hjs
    simp only [geoInner]
    split_ifs with hj hm
    · exact ih st (fun q hq => hjs q (List.mem_cons_of_mem _ hq))
    · refine le_trans (ih _ (fun q hq => hjs q (List.mem_cons_of_mem _ hq))) ?_
      simp only [appendGeo]
      split_ifs with hk
      · rw [appendToGroup_length]
        have hmono : countUnmerged E (addIdx i (addIdx j st.merged)) ≤
            countUnmerged E st.merged :=
          countUnmerged_mono E _ _ (fun n hn => addIdx_sub _ _ _ (addIdx_sub _ _ _ hn))
        omega
      · simp only [List.length_append, List.length_singleton]
        have hlt : countUnmerged E (addIdx i (addIdx j st.merged)) <
            countUnmerged E st.merged :=
          countUnmerged_strict E _ _
            (fun n hn => addIdx_sub _ _ _ (addIdx_sub _ _ _ hn)) j b
            (hjs (j, b) (List.mem_cons_self _ _)) hj
            (addIdx_sub _ _ _ (mem_addIdx _ _))
        omega
    · exact ih st (fun q hq => hjs q (List.mem_cons_of_mem _ hq))

/-- The outer geo loop does not increase groups-plus-unmerged. -/
theorem geoOuter_phi (fp : String → String) (E : List (ℕ × Listing)) :
    ∀ (L : List (ℕ × Listing)) (st : GeoState), (∀ p ∈ L, p ∈ E) →
      (geoOuter fp L st).multi.length +
        countUnmerged E (geoOuter fp L st).merged ≤
      st.multi.length + countUnmerged E st.merged := by
  intro L
  induction L with
  | nil =>
    intro st _
    exact le_refl _
  | cons ia rest ih =>
    obtain ⟨i, a⟩ := ia
    intro st hL
    simp only [geoOuter]
    split_ifs with hi
    · exact ih st (fun q hq => hL q (List.mem_cons_of_mem _ hq))
    · exact le_trans (ih _ (fun q hq => hL q (List.mem_cons_of_mem _ hq)))
        (geoInner_phi fp a i E rest st (fun q hq => hL q (List.mem_cons_of_mem _ hq)))

/-- With nothing merged every enumerated singleton is unmerged. -/
theorem countUnmerged_nil (E : List (ℕ × Listing)) : countUnmerged E [] = E.length := by
  unfold countUnmerged
  rw [List.filter_eq_self.mpr]
  intro a _
  rfl

/-- Elements of `enumFrom` are elements of the underlying list. -/
theorem mem_enumFrom_snd {α : Type} :
    ∀ (l : List α) (n : ℕ) (p : ℕ × α), p ∈ l.enumFrom n → p.2 ∈ l := by
  intro l
  induction l with
  | nil =>
    intro n p h
    cases h
  | cons a t ih =>
    intro n p h
    simp only [List.enumFrom] at h
    rcases List.mem_cons.mp h with rfl | h'
    · exact List.mem_cons_self _ _
    · exact List.mem_cons_of_mem _ (ih (n + 1) p h')

/-- Elements of `enum` are elements of the underlying list. -/
theorem mem_enum_snd {α : Type} (l : List α) (p : ℕ × α) (h : p ∈ l.enum) :
    p.2 ∈ l :=
  mem_enumFrom_snd l 0 p (by simpa [List.enum] using h)

/-- `Deduplicator.process` emits at most one listing per input listing. -/
theorem process_length_le (fp : String → String) (ls : List Listing) :
    (process fp ls).length ≤ ls.length := by
  unfold process
  dsimp only
  rw [List.length_append, List.length_map, List.length_map]
  have hne := buildGroups_nonempty fp (ls.map normListing)
  set sing := singletonsOf (buildGroups fp (ls.map normListing)) with hs
  set E := sing.enum with hE
  set st := geoOuter fp E ⟨multiOf (buildGroups fp (ls.map normListing)), []⟩ with hst
  have h1 : (E.filter fun p =>
      !(st.merged.contains p.1) &&
      !((st.multi.map Prod.fst).contains (fpOf fp p.2))).length ≤
      countUnmerged E st.merged := by
    unfold countUnmerged
    apply filter_length_le
    intro x hx
    simp only [Bool.and_eq_true] at hx
    exact hx.1
  have h2 := geoOuter_phi fp E E ⟨multiOf (buildGroups fp (ls.map normListing)), []⟩
    (fun p hp => hp)
  rw [← hst] at h2
  dsimp only at h2
  have h3 : countUnmerged E [] = E.length := countUnmerged_nil E
  have h4 : E.length = sing.length := by rw [hE, List.enum_length]
  have h5 := sing_multi_le_len (buildGroups fp (ls.map normListing))
  rw [← hs] at h5
  have h6 := len_le_sizes (buildGroups fp (ls.map normListing)) hne
  have h7 := buildGroups_sizes fp (ls.map normListing)
  rw [List.length_map] at h7
  omega

/-- Every output of `Deduplicator.process` is the merge of a nonempty
group of (normalized) input listings. -/
theorem process_derived (fp : String → String) (ls : List Listing) :
    ∀ x ∈ process fp ls, ∃ g, g ≠ [] ∧ (∀ y ∈ g, y ∈ ls.map normListing) ∧
      x = mergeListings g := by
  unfold process
  dsimp only
  intro x hx
  have hsingmem : ∀ q ∈ (singletonsOf (buildGroups fp (ls.map normListing))).enum,
      q.2 ∈ ls.map normListing := by
    intro q hq
    have h1 := mem_enum_snd _ q hq
    rcases singletonsOf_mem _ q.2 h1 with ⟨p, hp, hp2⟩
    exact buildGroups_mem fp _ p hp q.2 (by rw [hp2]; exact List.mem_singleton.mpr rfl)
  have hinit : ∀ q ∈ multiOf (buildGroups fp (ls.map normListing)),
      q.2 ≠ [] ∧ ∀ y ∈ q.2, y ∈ ls.map normListing := by
    intro q hq
    have hq' : q ∈ buildGroups fp (ls.map normListing) := List.mem_of_mem_filter hq
    exact ⟨buildGroups_nonempty fp _ q hq',
      fun y hy => buildGroups_mem fp _ q hq' y hy⟩
  rcases List.mem_append.mp hx with hx | hx
  · rcases List.mem_map.mp hx with ⟨p, hp, rfl⟩
    have hinv := geoOuter_inv fp (· ∈ ls.map normListing) _
      ⟨multiOf (buildGroups fp (ls.map normListing)), []⟩ hsingmem hinit p hp
    exact ⟨p.2, hinv.1, hinv.2, rfl⟩
  · rcases List.mem_map.mp hx with ⟨q, hq, rfl⟩
    have hq' := List.mem_of_mem_filter hq
    have h2 := hsingmem q hq'
    exact ⟨[q.2], by simp, by simpa using h2, rfl⟩

/-- C10: the deduplicator returns at most as many listings as it was
given, and every output listing is the merge of a nonempty group of
(normalized) input listings — a single-element group being passed
through unchanged — so no listing is fabricated. -/
theorem process_output_bounded_and_derived (fp : String → String) (ls : List Listing) :
    (process fp ls).length ≤ ls.length ∧
    ∀ x ∈ process fp ls, ∃ g, g ≠ [] ∧ (∀ y ∈ g, y ∈ ls.map normListing) ∧
      x = mergeListings g :=
  ⟨process_length_le fp ls, process_derived fp ls⟩

/-- Witness for C10 at a concrete one-listing input. -/
theorem process_output_bounded_and_derived_witness :
    (process id [wl1]).length ≤ 1 ∧
    ∃ g, g ≠ [] ∧ (∀ y ∈ g, y ∈ [wl1].map normListing) ∧
      normListing wl1 = mergeListings g :=
  ⟨(process_output_bounded_and_derived id [wl1]).1,
   (process_output_bounded_and_derived id [wl1]).2 (normListing wl1) (by decide)⟩

/-! ### Address stability of the merge -/

theorem mergeSqft_addr (m l : Listing) : addrOf (mergeSqft m l) = addrOf m := by
  unfold mergeSqft; split <;> rfl

theorem mergeLotSqft_addr (m l : Listing) : addrOf (mergeLotSqft m l) = addrOf m := by
  unfold mergeLotSqft; split <;> rfl

theorem mergeYearBuilt_addr (m l : Listing) : addrOf (mergeYearBuilt m l) = addrOf m := by
  unfold mergeYearBuilt; split <;> rfl

theorem mergeHoa_addr (m l : Listing) : addrOf (mergeHoa m l) = addrOf m := by
  unfold mergeHoa; split <;> rfl

theorem mergeTax_addr (m l : Listing) : addrOf (mergeTax m l) = addrOf m := by
  unfold mergeTax; split <;> rfl

theorem mergeGarage_addr (m l : Listing) : addrOf (mergeGarage m l) = addrOf m := by
  unfold mergeGarage; split <;> rfl

theorem mergeBasement_addr (m l : Listing) : addrOf (mergeBasement m l) = addrOf m := by
  unfold mergeBasement; split <;> rfl

theorem mergePool_addr (m l : Listing) : addrOf (mergePool m l) = addrOf m := by
  unfold mergePool; split <;> rfl

theorem mergeFireplace_addr (m l : Listing) : addrOf (mergeFireplace m l) = addrOf m := by
  unfold mergeFireplace; split <;> rfl

theorem mergeSchool_addr (m l : Listing) : addrOf (mergeSchool m l) = addrOf m := by
  unfold mergeSchool; split <;> rfl

theorem mergePhoto_addr (m l : Listing) : addrOf (mergePhoto m l) = addrOf m := by
  unfold mergePhoto; split <;> rfl

theorem mergeRedfinEst_addr (m l : Listing) : addrOf (mergeRedfinEst m l) = addrOf m := by
  unfold mergeRedfinEst; split <;> rfl

theorem mergeZest_addr (m l : Listing) : addrOf (mergeZest m l) = addrOf m := by
  unfold mergeZest; split <;> rfl

theorem mergeHistory_addr (m l : Listing) : addrOf (mergeHistory m l) = addrOf m := by
  unfold mergeHistory; split <;> rfl

theorem mergeCoords_addr (m l : Listing) : addrOf (mergeCoords m l) = addrOf m := by
  unfold mergeCoords; split <;> rfl

/-- `mergeStep` never writes an address-identity field. -/
theorem mergeStep_addr (m l : Listing) : addrOf (mergeStep m l) = addrOf m := by
  unfold mergeStep
  rw [mergeCoords_addr, mergeHistory_addr, mergeZest_addr, mergeRedfinEst_addr, mergePhoto_addr, mergeSchool_addr, mergeFireplace_addr, mergePool_addr, mergeBasement_addr, mergeGarage_addr, mergeTax_addr, mergeHoa_addr, mergeYearBuilt_addr, mergeLotSqft_addr, mergeSqft_addr]

/-- Folding merge steps never writes an address-identity field. -/
theorem foldl_mergeStep_addr :
    ∀ (L : List Listing) (m : Listing), addrOf (L.foldl mergeStep m) = addrOf m := by
  intro L
  induction L with
  | nil =>
    intro m
    rfl
  | cons z t ih =>
    intro m
    simp only [List.foldl_cons]
    rw [ih, mergeStep_addr]

/-- A merged group keeps the address identity of its first member. -/
theorem mergeListings_addr (x : Listing) (rest : List Listing) :
    addrOf (mergeListings (x :: rest)) = addrOf x := by
  cases rest with
  | nil => rfl
  | cons y t =>
    show addrOf ((y :: t).foldl mergeStep
      { x with source_urls := mergeUrls (x :: y :: t) }) = addrOf x
    rw [foldl_mergeStep_addr]
    rfl

/-- A listing whose cached normalized address is consistent with its
address fields is a fixed point of phase-1 normalization. -/
theorem normListing_self (x : Listing)
    (h : x.normalized_address =
      some (normalize_address x.address x.city x.state x.zip_code)) :
    normListing x = x := by
  unfold normListing
  rw [← h]

/-- Every output of `process` is a fixed point of phase-1
normalization. -/
theorem out_fixed (fp : String → String) (ls : List Listing) :
    ∀ x ∈ process fp ls, normListing x = x := by
  intro x hx
  rcases process_derived fp ls x hx with ⟨g, hg, hmem, rfl⟩
  cases g with
  | nil => exact absurd rfl hg
  | cons h t =>
    have hh : h ∈ ls.map normListing := hmem h (List.mem_cons_self _ _)
    rcases List.mem_map.mp hh with ⟨y, _, rfl⟩
    have haddr := mergeListings_addr (normListing y) t
    simp only [addrOf, Prod.mk.injEq] at haddr
    obtain ⟨h1, h2, h3, h4, h5⟩ := haddr
    apply normListing_self
    rw [h5, h1, h2, h3, h4]
    rfl

/-! ### Fingerprint-key invariants of the grouping -/

/-- `hasKey` agrees with key membership. -/
theorem hasKey_iff (k : String) : ∀ gs, hasKey k gs = true ↔ k ∈ gs.map Prod.fst := by
  intro gs
  induction gs with
  | nil => simp [hasKey]
  | cons p tl ih =>
    obtain ⟨k', g⟩ := p
    by_cases hk : k' = k
    · subst hk
      have hd : decide (k' = k') = true := by simp
      simp [hasKey, List.find?_cons, hd]
    · have hd : decide (k' = k) = false := by simpa using hk
      simp only [hasKey, List.find?_cons, hd, List.map_cons, List.mem_cons] at ih ⊢
      rw [ih]
      constructor
      · exact Or.inr
      · rintro (rfl | h)
        · exact absurd rfl hk
        · exact h

/-- Keys after `addToGroups`: unchanged when the key exists, otherwise
appended at the end. -/
theorem addToGroups_keys (k : String) (l : Listing) :
    ∀ gs, (addToGroups k l gs).map Prod.fst =
      if k ∈ gs.map Prod.fst then gs.map Prod.fst
      else gs.map Prod.fst ++ [k] := by
  intro gs
  induction gs with
  | nil => simp [addToGroups]
  | cons p tl ih =>
    obtain ⟨k', g⟩ := p
    simp only [addToGroups]
    by_cases hk : k' = k
    · subst hk
      rw [if_pos rfl]
      simp
    · rw [if_neg hk]
      simp only [List.map_cons, ih]
      by_cases hmem : k ∈ tl.map Prod.fst
      · rw [if_pos hmem, if_pos (List.mem_cons_of_mem _ hmem)]
      · rw [if_neg hmem, if_neg ?hne]
        · simp
        case hne =>
          simp only [List.mem_cons]
          rintro (rfl | h)
          · exact hk rfl
          · exact hmem h

/-- `addToGroups` keeps the keys distinct. -/
theorem addToGroups_keys_nodup (k : String) (l : Listing)
    (gs : List (String × List Listing)) (h : (gs.map Prod.fst).Nodup) :
    ((addToGroups k l gs).map Prod.fst).Nodup := by
  rw [addToGroups_keys]
  split_ifs with hm
  · exact h
  · simp [List.nodup_append, h, hm]

/-- `addToGroups` preserves "every member carries its group key" when
the inserted listing carries `k`. -/
theorem addToGroups_keyinv (fp : String → String) (k : String) (l : Listing)
    (hl : fpOf fp l = k) :
    ∀ gs, (∀ p ∈ gs, ∀ x ∈ p.2, fpOf fp x = p.1) →
      ∀ p ∈ addToGroups k l gs, ∀ x ∈ p.2, fpOf fp x = p.1 := by
  intro gs
  induction gs with
  | nil =>
    intro _ p hp x hx
    rcases List.mem_singleton.mp hp with rfl
    rcases List.mem_singleton.mp hx with rfl
    exact hl
  | cons q tl ih =>
    obtain ⟨k', g⟩ := q
    intro hinv p hp x hx
    simp only [addToGroups] at hp
    split_ifs at hp with hk
    · subst hk
      rcases List.mem_cons.mp hp with rfl | hp'
      · rcases List.mem_append.mp hx with h | h
        · exact hinv (k', g) (List.mem_cons_self _ _) x h
        · rcases List.mem_singleton.mp h with rfl
          exact hl
      · exact hinv p (List.mem_cons_of_mem _ hp') x hx
    · rcases List.mem_cons.mp hp with rfl | hp'
      · exact hinv (k', g) (List.mem_cons_self _ _) x hx
      · exact ih (fun q' hq' => hinv q' (List.mem_cons_of_mem _ hq')) p hp' x hx

/-- In `buildGroups`, every member carries its group key. -/
theorem buildGroups_keyinv (fp : String → String) (ls : List Listing) :
    ∀ p ∈ buildGroups fp ls, ∀ x ∈ p.2, fpOf fp x = p.1 := by
  suffices h : ∀ (L : List Listing) (gs : List (String × List Listing)),
      (∀ p ∈ gs, ∀ x ∈ p.2, fpOf fp x = p.1) →
      ∀ p ∈ L.foldl (fun acc l => addToGroups (fpOf fp l) l acc) gs,
        ∀ x ∈ p.2, fpOf fp x = p.1 by
    exact h ls [] (by simp)
  intro L
  induction L with
  | nil =>
    intro gs hgs
    exact hgs
  | cons l tl ih =>
    intro gs hgs
    simp only [List.foldl_cons]
    exact ih _ (addToGroups_keyinv fp _ l rfl gs hgs)

/-- `buildGroups` has pairwise-distinct keys. -/
theorem buildGroups_keys_nodup (fp : String → String) (ls : List Listing) :
    ((buildGroups fp ls).map Prod.fst).Nodup := by
  suffices h : ∀ (L : List Listing) (gs : List (String × List Listing)),
      ((gs.map Prod.fst).Nodup) →
      (((L.foldl (fun acc l => addToGroups (fpOf fp l) l acc) gs).map Prod.fst).Nodup) by
    exact h ls [] (by simp)
  intro L
  induction L with
  | nil =>
    intro gs hgs
    exact hgs
  | cons l tl ih =>
    intro gs hgs
    simp only [List.foldl_cons]
    exact ih _ (addToGroups_keys_nodup _ _ _ hgs)

/-- `appendToGroup` leaves the key sequence unchanged. -/
theorem appendToGroup_keys (k : String) (b : Listing) :
    ∀ gs, (appendToGroup k b gs).map Prod.fst = gs.map Prod.fst := by
  intro gs
  induction gs with
  | nil => rfl
  | cons q tl ih =>
    obtain ⟨k', g⟩ := q
    simp only [appendToGroup]
    split_ifs <;> simp [ih]

/-- Each entry after `appendToGroup` is an old entry or an old entry
with `b` appended to its group. -/
theorem appendToGroup_entries (k : String) (b : Listing) :
    ∀ gs, ∀ p ∈ appendToGroup k b gs,
      p ∈ gs ∨ ∃ g, (p.1, g) ∈ gs ∧ p = (p.1, g ++ [b]) := by
  intro gs
  induction gs with
  | nil =>
    intro p hp
    cases hp
  | cons q tl ih =>
    obtain ⟨k', g⟩ := q
    intro p hp
    simp only [appendToGroup] at hp
    split_ifs at hp with hk
    · rcases List.mem_cons.mp hp with rfl | hp'
      · exact Or.inr ⟨g, List.mem_cons_self _ _, rfl⟩
      · exact Or.inl (List.mem_cons_of_mem _ hp')
    · rcases List.mem_cons.mp hp with rfl | hp'
      · exact Or.inl (List.mem_cons_self _ _)
      · rcases ih p hp' with h | ⟨g', hg', hpe⟩
        · exact Or.inl (List.mem_cons_of_mem _ h)
        · exact Or.inr ⟨g', List.mem_cons_of_mem _ hg', hpe⟩

/-- `fpOf` only reads the address identity. -/
theorem fpOf_addr_eq (fp : String → String) (x y : Listing)
    (h : addrOf x = addrOf y) : fpOf fp x = fpOf fp y := by
  have h2 : x.normalized_address = y.normalized_address :=
    congrArg (fun t => t.2.2.2.2) h
  unfold fpOf
  rw [h2]

/-- A merged group keeps the fingerprint of its first member. -/
theorem fpOf_mergeListings (fp : String → String) (x : Listing) (t : List Listing) :
    fpOf fp (mergeListings (x :: t)) = fpOf fp x :=
  fpOf_addr_eq fp _ _ (mergeListings_addr x t)

/-- `List.contains` on strings agrees with membership. -/
theorem contains_iff_str (m : List String) (s : String) :
    m.contains s = true ↔ s ∈ m := by
  induction m with
  | nil => simp [List.contains]
  | cons a tl ih =>
    by_cases ha : a = s
    · subst ha
      simp [List.contains, List.elem_cons]
    · simp only [List.contains, List.elem_cons] at ih ⊢
      rw [show (s == a) = false from by simpa using fun h => ha h.symm]
      simp only [List.mem_cons]
      rw [ih]
      constructor
      · exact Or.inr
      · rintro (rfl | h)
        · exact absurd rfl ha
        · exact h

/-- `appendGeo` preserves "each multi group starts with a listing whose
fingerprint is the group key". -/
theorem appendGeo_HK (fp : String → String) (st : GeoState) (a b : Listing) (i j : ℕ)
    (h : ∀ p ∈ st.multi, ∃ x t, p.2 = x :: t ∧ fpOf fp x = p.1) :
    ∀ p ∈ (appendGeo fp st a b i j).multi, ∃ x t, p.2 = x :: t ∧ fpOf fp x = p.1 := by
  unfold appendGeo
  dsimp only
  split_ifs with hk
  · intro p hp
    rcases appendToGroup_entries _ _ _ p hp with hmem | ⟨g, hg, hpe⟩
    · exact h p hmem
    · obtain ⟨x, t, hge, hfp⟩ := h (p.1, g) hg
      dsimp only at hge hfp
      have hp2 : p.2 = g ++ [b] := by rw [hpe]
      refine ⟨x, t ++ [b], ?_, hfp⟩
      rw [hp2, hge]
      rfl
  · intro p hp
    rcases List.mem_append.mp hp with hmem | hmem
    · exact h p hmem
    · rcases List.mem_singleton.mp hmem with rfl
      exact ⟨a, [b], rfl, rfl⟩

/-- `appendGeo` preserves distinctness of the multi-group keys. -/
theorem appendGeo_keys_nodup (fp : String → String) (st : GeoState)
    (a b : Listing) (i j : ℕ) (hn : (st.multi.map Prod.fst).Nodup) :
    (((appendGeo fp st a b i j).multi).map Prod.fst).Nodup := by
  unfold appendGeo
  dsimp only
  split_ifs with hk
  · rw [appendToGroup_keys]
    exact hn
  · rw [List.map_append]
    simp only [List.map_cons, List.map_nil]
    rw [List.nodup_append]
    refine ⟨hn, List.nodup_singleton _, ?_⟩
    intro x hx hx2
    rw [List.mem_singleton] at hx2
    subst hx2
    exact hk ((hasKey_iff _ _).mpr hx)

/-- The inner geo loop preserves the head-key invariant. -/
theorem geoInner_HK (fp : String → String) (a : Listing) (i : ℕ) :
    ∀ (js : List (ℕ × Listing)) (st : GeoState),
      (∀ p ∈ st.multi, ∃ x t, p.2 = x :: t ∧ fpOf fp x = p.1) →
      ∀ p ∈ (geoInner fp a i js st).multi, ∃ x t, p.2 = x :: t ∧ fpOf fp x = p.1 := by
  intro js
  induction js with
  | nil =>
    intro st h
    exact h
  | cons q rest ih =>
    obtain ⟨j, b⟩ := q
    intro st h
    simp only [geoInner]
    split_ifs with h1 h2
    · exact ih st h
    · exact ih _ (appendGeo_HK fp st a b i j h)
    · exact ih st h

/-- The outer geo loop preserves the head-key invariant. -/
theorem geoOuter_HK (fp : String → String) :
    ∀ (E : List (ℕ × Listing)) (st : GeoState),
      (∀ p ∈ st.multi, ∃ x t, p.2 = x :: t ∧ fpOf fp x = p.1) →
      ∀ p ∈ (geoOuter fp E st).multi, ∃ x t, p.2 = x :: t ∧ fpOf fp x = p.1 := by
  intro E
  induction E with
  | nil =>
    intro st h
    exact h
  | cons q rest ih =>
    obtain ⟨i, a⟩ := q
    intro st h
    simp only [geoOuter]
    split_ifs with h1
    · exact ih st h
    · exact ih _ (geoInner_HK fp a i rest st h)

/-- The inner geo loop keeps the multi-group keys distinct. -/
theorem geoInner_keys_nodup (fp : String → String) (a : Listing) (i : ℕ) :
    ∀ (js : List (ℕ × Listing)) (st : GeoState),
      (st.multi.map Prod.fst).Nodup →
      (((geoInner fp a i js st).multi).map Prod.fst).Nodup := by
  intro js
  induction js with
  | nil =>
    intro st h
    exact h
  | cons q rest ih =>
    obtain ⟨j, b⟩ := q
    intro st h
    simp only [geoInner]
    split_ifs with h1 h2
    · exact ih st h
    · exact ih _ (appendGeo_keys_nodup fp st a b i j h)
    · exact ih st h

/-- The outer geo loop keeps the multi-group keys distinct. -/
theorem geoOuter_keys_nodup (fp : String → String) :
    ∀ (E : List (ℕ × Listing)) (st : GeoState),
      (st.multi.map Prod.fst).Nodup →
      (((geoOuter fp E st).multi).map Prod.fst).Nodup := by
  intro E
  induction E with
  | nil =>
    intro st h
    exact h
  | cons q rest ih =>
    obtain ⟨i, a⟩ := q
    intro st h
    simp only [geoOuter]
    split_ifs with h1
    · exact ih st h
    · exact ih _ (geoInner_keys_nodup fp a i rest st h)

/-- The singleton fingerprints form a sublist of the group keys. -/
theorem singletonsOf_fps_sublist (fp : String → String) :
    ∀ gs : List (String × List Listing),
      (∀ p ∈ gs, ∀ x ∈ p.2, fpOf fp x = p.1) →
      ((singletonsOf gs).map (fpOf fp)).Sublist (gs.map Prod.fst) := by
  intro gs
  induction gs with
  | nil =>
    intro _
    simp [singletonsOf]
  | cons p tl ih =>
    intro hinv
    have htl := ih fun q hq => hinv q (List.mem_cons_of_mem _ hq)
    rcases h2 : p.2 with _ | ⟨a, _ | ⟨b, r⟩⟩
    · simp only [singletonsOf, List.filterMap_cons, h2, List.map_cons]
      exact List.Sublist.cons _ htl
    · have ha : fpOf fp a = p.1 :=
        hinv p (List.mem_cons_self _ _) a (by rw [h2]; exact List.mem_cons_self _ _)
      simp only [singletonsOf, List.filterMap_cons, h2, List.map_cons, ha]
      exact List.Sublist.cons₂ _ htl
    · simp only [singletonsOf, List.filterMap_cons, h2, List.map_cons]
      exact List.Sublist.cons _ htl

/-- The multi-group keys form a sublist of the group keys. -/
theorem multiOf_keys_sublist (gs : List (String × List Listing)) :
    ((multiOf gs).map Prod.fst).Sublist (gs.map Prod.fst) := by
  unfold multiOf
  exact (List.filter_sublist _).map Prod.fst

/-- Dropping the indices of `enumFrom` recovers the list. -/
theorem enumFrom_snd_eq {α : Type} :
    ∀ (l : List α) (n : ℕ), (l.enumFrom n).map Prod.snd = l := by
  intro l
  induction l with
  | nil =>
    intro n
    rfl
  | cons a tl ih =>
    intro n
    simp only [List.enumFrom, List.map_cons]
    rw [ih]

/-- Dropping the indices of `enum` recovers the list. -/
theorem enum_snd_eq {α : Type} (l : List α) : l.enum.map Prod.snd = l :=
  enumFrom_snd_eq l 0

/-- A map that fixes every member is the identity. -/
theorem map_self_of_fixed {α : Type} (f : α → α) :
    ∀ l : List α, (∀ x ∈ l, f x = x) → l.map f = l := by
  intro l
  induction l with
  | nil =>
    intro _
    rfl
  | cons a tl ih =>
    intro h
    simp only [List.map_cons]
    rw [h a (List.mem_cons_self _ _), ih fun x hx => h x (List.mem_cons_of_mem _ hx)]

/-- The fingerprints of distinct output listings of `process` are
pairwise distinct: merged groups keep their (distinct) keys, surviving
singletons keep their (distinct) fingerprints, and the `seen` filter
separates the two parts. -/
theorem out_fps_nodup (fp : String → String) (ls : List Listing) :
    ((process fp ls).map (fpOf fp)).Nodup := by
  unfold process
  dsimp only
  rw [List.map_append, List.nodup_append]
  have hkeyinv := buildGroups_keyinv fp (ls.map normListing)
  have hHK0 : ∀ p ∈ multiOf (buildGroups fp (ls.map normListing)),
      ∃ x t, p.2 = x :: t ∧ fpOf fp x = p.1 := by
    intro p hp
    have hpg : p ∈ buildGroups fp (ls.map normListing) := List.mem_of_mem_filter hp
    have hne : p.2 ≠ [] := buildGroups_nonempty fp _ p hpg
    obtain ⟨x, t, hpe⟩ := List.exists_cons_of_ne_nil hne
    exact ⟨x, t, hpe, hkeyinv p hpg x (by rw [hpe]; exact List.mem_cons_self _ _)⟩
  have hHK := geoOuter_HK fp
    ((singletonsOf (buildGroups fp (ls.map normListing))).enum)
    ⟨multiOf (buildGroups fp (ls.map normListing)), []⟩ hHK0
  have hkn0 : ((multiOf (buildGroups fp (ls.map normListing))).map Prod.fst).Nodup :=
    List.Nodup.sublist (multiOf_keys_sublist _) (buildGroups_keys_nodup fp _)
  have hkn := geoOuter_keys_nodup fp
    ((singletonsOf (buildGroups fp (ls.map normListing))).enum)
    ⟨multiOf (buildGroups fp (ls.map normListing)), []⟩ hkn0
  have hm1 :
      (((geoOuter fp (singletonsOf (buildGroups fp (ls.map normListing))).enum
          ⟨multiOf (buildGroups fp (ls.map normListing)), []⟩).multi).map
        fun p => mergeListings p.2).map (fpOf fp)
      = ((geoOuter fp (singletonsOf (buildGroups fp (ls.map normListing))).enum
          ⟨multiOf (buildGroups fp (ls.map normListing)), []⟩).multi).map Prod.fst := by
    rw [List.map_map]
    apply List.map_congr_left
    intro p hp
    obtain ⟨x, t, hpe, hfx⟩ := hHK p hp
    show fpOf fp (mergeListings p.2) = p.1
    rw [hpe, fpOf_mergeListings, hfx]
  have hsingnd : ((singletonsOf (buildGroups fp (ls.map normListing))).map (fpOf fp)).Nodup :=
    List.Nodup.sublist (singletonsOf_fps_sublist fp _ hkeyinv) (buildGroups_keys_nodup fp _)
  have hrestsub :
      ∀ f : ℕ × Listing → Bool,
        ((((singletonsOf (buildGroups fp (ls.map normListing))).enum.filter f).map
          Prod.snd).map (fpOf fp)).Sublist
          ((singletonsOf (buildGroups fp (ls.map normListing))).map (fpOf fp)) := by
    intro f
    have h1 := (@List.filter_sublist (ℕ × Listing) f
      ((singletonsOf (buildGroups fp (ls.map normListing))).enum)).map Prod.snd
    rw [enum_snd_eq] at h1
    exact h1.map (fpOf fp)
  refine ⟨?_, ?_, ?_⟩
  · rw [hm1]
    exact hkn
  · exact List.Nodup.sublist (hrestsub _) hsingnd
  · intro y hy1 hy2
    rw [hm1] at hy1
    rw [List.map_map, List.mem_map] at hy2
    obtain ⟨q, hq, hqy⟩ := hy2
    have hcond := (List.mem_filter.mp hq).2
    rw [Bool.and_eq_true] at hcond
    have h2 : ((((geoOuter fp (singletonsOf (buildGroups fp (ls.map normListing))).enum
        ⟨multiOf (buildGroups fp (ls.map normListing)), []⟩).multi).map Prod.fst).contains
        (fpOf fp q.2)) = false := by
      rcases hc : ((((geoOuter fp (singletonsOf (buildGroups fp (ls.map normListing))).enum
          ⟨multiOf (buildGroups fp (ls.map normListing)), []⟩).multi).map Prod.fst).contains
          (fpOf fp q.2)) with _ | _
      · rfl
      · rw [hc] at hcond
        simpa using hcond.2
    have hnm : fpOf fp q.2 ∉
        (((geoOuter fp (singletonsOf (buildGroups fp (ls.map normListing))).enum
          ⟨multiOf (buildGroups fp (ls.map normListing)), []⟩).multi).map Prod.fst) := by
      intro hmem
      rw [(contains_iff_str _ _).mpr hmem] at h2
      cases h2
    simp only [Function.comp] at hqy
    rw [← hqy] at hy1
    exact hnm hy1

/-- Inserting under a fresh key appends a new group at the end. -/
theorem addToGroups_fresh (k : String) (l : Listing) :
    ∀ gs, k ∉ gs.map Prod.fst → addToGroups k l gs = gs ++ [(k, [l])] := by
  intro gs
  induction gs with
  | nil =>
    intro _
    rfl
  | cons p tl ih =>
    obtain ⟨k', g⟩ := p
    intro hk
    simp only [List.map_cons, List.mem_cons] at hk
    push_neg at hk
    simp only [addToGroups]
    rw [if_neg (show ¬ k' = k from fun he => hk.1 he.symm), ih hk.2]
    rfl

/-- Grouping listings with pairwise-distinct fingerprints yields one
singleton group per listing, in order (generalized over the seed). -/
theorem buildGroups_go_distinct (fp : String → String) :
    ∀ (ls : List Listing) (gs : List (String × List Listing)),
      (ls.map (fpOf fp)).Nodup →
      (∀ l ∈ ls, fpOf fp l ∉ gs.map Prod.fst) →
      ls.foldl (fun acc l => addToGroups (fpOf fp l) l acc) gs
        = gs ++ ls.map fun l => (fpOf fp l, [l]) := by
  intro ls
  induction ls with
  | nil =>
    intro gs _ _
    simp
  | cons l tl ih =>
    intro gs hnd hdisj
    simp only [List.map_cons, List.nodup_cons] at hnd
    simp only [List.foldl_cons]
    rw [addToGroups_fresh _ _ gs (hdisj l (List.mem_cons_self _ _))]
    rw [ih (gs ++ [(fpOf fp l, [l])]) hnd.2 ?hdisj2]
    · simp
    case hdisj2 =>
      intro x hx
      rw [List.map_append, List.mem_append]
      rintro (hmem | hmem)
      · exact hdisj x (List.mem_cons_of_mem _ hx) hmem
      · simp only [List.map_cons, List.map_nil, List.mem_singleton] at hmem
        exact hnd.1 (hmem ▸ List.mem_map_of_mem (fpOf fp) hx)

/-- Grouping listings with pairwise-distinct fingerprints yields one
singleton group per listing, in order. -/
theorem buildGroups_distinct (fp : String → String) (ls : List Listing)
    (h : (ls.map (fpOf fp)).Nodup) :
    buildGroups fp ls = ls.map fun l => (fpOf fp l, [l]) := by
  unfold buildGroups
  rw [buildGroups_go_distinct fp ls [] h (by simp)]
  rfl

/-- The singletons of an all-singleton grouping are the listings
themselves. -/
theorem singletonsOf_map_singleton (fp : String → String) :
    ∀ ls : List Listing, singletonsOf (ls.map fun l => (fpOf fp l, [l])) = ls := by
  intro ls
  induction ls with
  | nil => rfl
  | cons l tl ih =>
    simp only [List.map_cons, singletonsOf, List.filterMap_cons] at ih ⊢
    rw [ih]

/-- An all-singleton grouping has no multi groups. -/
theorem multiOf_map_singleton (fp : String → String) :
    ∀ ls : List Listing, multiOf (ls.map fun l => (fpOf fp l, [l])) = [] := by
  intro ls
  induction ls with
  | nil => rfl
  | cons l tl ih =>
    simp only [List.map_cons, multiOf, List.filter_cons] at ih ⊢
    rw [if_neg (by simp)]
    exact ih

/-- The inner geo loop is inert when the pivot matches nothing. -/
theorem geoInner_nomatch (fp : String → String) (a : Listing) (i : ℕ) :
    ∀ (js : List (ℕ × Listing)) (st : GeoState),
      (∀ p ∈ js, pairMatch a p.2 = false) → geoInner fp a i js st = st := by
  intro js
  induction js with
  | nil =>
    intro st _
    rfl
  | cons q rest ih =>
    obtain ⟨j, b⟩ := q
    intro st h
    have hb : pairMatch a b = false := h (j, b) (List.mem_cons_self _ _)
    simp only [geoInner, hb, Bool.false_eq_true, if_false]
    split_ifs <;> exact ih st fun q hq => h q (List.mem_cons_of_mem _ hq)

/-- The geo pass is inert when no two singletons match. -/
theorem geoOuter_nomatch (fp : String → String) :
    ∀ (E : List (ℕ × Listing)) (st : GeoState),
      E.Pairwise (fun p q => pairMatch p.2 q.2 = false) → geoOuter fp E st = st := by
  intro E
  induction E with
  | nil =>
    intro st _
    rfl
  | cons q rest ih =>
    obtain ⟨i, a⟩ := q
    intro st h
    rw [List.pairwise_cons] at h
    simp only [geoOuter]
    rw [geoInner_nomatch fp a i rest st fun p hp => h.1 p hp]
    split_ifs <;> exact ih st h.2

/-- A filter whose predicate holds on every member is the identity. -/
theorem filter_all_true {α : Type} (p : α → Bool) :
    ∀ l : List α, (∀ a ∈ l, p a = true) → l.filter p = l := by
  intro l
  induction l with
  | nil =>
    intro _
    rfl
  | cons a tl ih =>
    intro h
    rw [List.filter_cons, if_pos (h a (List.mem_cons_self _ _)),
      ih fun x hx => h x (List.mem_cons_of_mem _ hx)]

/-- `process` fixes any list of normalization-fixed listings with
distinct fingerprints and no geo match between any two of them. -/
theorem process_fixes (fp : String → String) (out : List Listing)
    (hfix : out.map normListing = out)
    (hnd : (out.map (fpOf fp)).Nodup)
    (h : out.Pairwise fun a b => pairMatch a b = false) :
    process fp out = out := by
  unfold process
  dsimp only
  rw [hfix, buildGroups_distinct fp out hnd, singletonsOf_map_singleton,
    multiOf_map_singleton]
  have henum : out.enum.Pairwise fun p q => pairMatch p.2 q.2 = false := by
    rw [← enum_snd_eq out, List.pairwise_map] at h
    exact h
  rw [geoOuter_nomatch fp out.enum ⟨[], []⟩ henum]
  simp only [List.map_nil, List.nil_append]
  rw [filter_all_true
    (fun p => !(List.contains [] p.1) && !(List.contains [] (fpOf fp p.2)))
    out.enum fun a _ => rfl]
  exact enum_snd_eq out

/-- `process` on two fingerprint-distinct listings that geo-match
produces the single merged listing. -/
theorem process_pair_merge (fp : String → String) (x y : Listing)
    (hfp : fpOf fp (normListing x) ≠ fpOf fp (normListing y))
    (hm : pairMatch (normListing x) (normListing y) = true) :
    process fp [x, y] = [mergeListings [normListing x, normListing y]] := by
  unfold process
  dsimp only
  have hgroups : buildGroups fp ([x, y].map normListing)
      = [(fpOf fp (normListing x), [normListing x]),
         (fpOf fp (normListing y), [normListing y])] := by
    rw [List.map_cons, List.map_cons, List.map_nil]
    rw [buildGroups_distinct fp [normListing x, normListing y] (by simp [hfp])]
    rfl
  rw [hgroups]
  have hsing : singletonsOf [(fpOf fp (normListing x), [normListing x]),
      (fpOf fp (normListing y), [normListing y])]
      = [normListing x, normListing y] := rfl
  have hmulti : multiOf [(fpOf fp (normListing x), [normListing x]),
      (fpOf fp (normListing y), [normListing y])] = [] := rfl
  rw [hsing, hmulti]
  have hst : geoOuter fp ([normListing x, normListing y]).enum ⟨[], []⟩
      = ⟨[(fpOf fp (normListing x), [normListing x, normListing y])], [0, 1]⟩ := by
    simp [geoOuter, geoInner, appendGeo, hasKey, addIdx, hm, List.enum, List.enumFrom]
  rw [hst]
  have hc0 : (!(([0, 1] : List ℕ).contains 0)) = false := by decide
  have hc1 : (!(([0, 1] : List ℕ).contains 1)) = false := by decide
  simp only [List.enum, List.enumFrom, List.filter_cons, List.filter_nil,
    hc0, hc1, Bool.false_and, Bool.false_eq_true, if_false, List.map_cons,
    List.map_nil, List.append_nil]

/-- C3 (amended): `Deduplicator.process` is idempotent on outputs with
no geo match between any two output listings: a second run changes
nothing because output fingerprints are pairwise distinct and the
normalization pass is already fixed. (Unconditional idempotence is
false — a fingerprint-merged group can geo-match a surviving singleton
on the second run; see the counterexample.) -/
theorem process_idempotent_of_no_geo_match (fp : String → String) (ls : List Listing)
    (h : (process fp ls).Pairwise fun a b => pairMatch a b = false) :
    process fp (process fp ls) = process fp ls :=
  process_fixes fp (process fp ls)
    (map_self_of_fixed normListing (process fp ls) (out_fixed fp ls))
    (out_fps_nodup fp ls) h

/-- Witness for C3 (amended) at a one-listing input: the single output
is vacuously pairwise non-matching and the second run is the
identity. -/
theorem process_idempotent_of_no_geo_match_witness :
    ((process id [wl1]).Pairwise fun a b => pairMatch a b = false) ∧
      process id (process id [wl1]) = process id [wl1] :=
  ⟨by decide, process_idempotent_of_no_geo_match id [wl1] (by decide)⟩

/-- C3 counterexample: on `[cA, cB, cC]` the first run fingerprint-merges
`cA`/`cB` and keeps `cC`, and the second run geo-merges those two
outputs, so re-running `process` on its own output shrinks it. -/
theorem process_not_idempotent :
    ¬ process id (process id [cA, cB, cC]) = process id [cA, cB, cC] := by
  have h1 : process id [cA, cB, cC] = [cM, cC3] := rfl
  have hfp : fpOf id (normListing cM) ≠ fpOf id (normListing cC3) := by decide
  have hm : pairMatch (normListing cM) (normListing cC3) = true := by
    rw [pairMatch_split]
    refine ⟨?_, ?_, ?_⟩
    · rw [geo_match_iff]
      refine ⟨10, 20, 10, 20, rfl, rfl, rfl, rfl, ?_, ?_⟩ <;> norm_num
    · rw [price_similar_iff]
      have hp : (normListing cM).price = (500000 : ℚ) := rfl
      have hq : (normListing cC3).price = (500000 : ℚ) := rfl
      rw [hp, hq]
      refine ⟨by decide, by decide, ?_⟩
      norm_num [min_def, max_def]
    · rw [beds_baths_iff]
      constructor
      · intro u v hu hv
        rw [show (normListing cM).bedrooms = some 3 from rfl] at hu
        rw [show (normListing cC3).bedrooms = some 3 from rfl] at hv
        rw [Option.some_inj] at hu hv
        rw [← hu, ← hv]
      · intro u v hu hv
        rw [show (normListing cM).bathrooms = some 2 from rfl] at hu
        rw [show (normListing cC3).bathrooms = some 2 from rfl] at hv
        rw [Option.some_inj] at hu hv
        rw [← hu, ← hv]
  intro hcontra
  rw [h1, process_pair_merge id cM cC3 hfp hm] at hcontra
  have hlen := congrArg List.length hcontra
  simp at hlen
